import Mathlib

/-!
Shallow embedding of the `compus` repository's parsing and metric layer.

Strings are modelled as `List Char`; JavaScript numbers are modelled as
exact rationals (`ℚ`), with `NaN`/`null` represented explicitly where the
code can produce them.  The regular expressions appearing in the source are
small enough that each one is embedded as a deterministic scanner whose
greedy/backtracking behaviour provably coincides with the JavaScript
semantics on all inputs (the star/optional sub-patterns are over
single-character classes, so backtracking never changes the result).
-/

namespace Compus

/-! ## Character classes and basic string utilities -/

/-- JavaScript `\s` (the members that can occur in this code's inputs):
ASCII whitespace, NBSP, ideographic space, BOM. -/
def jsWhitespace (c : Char) : Bool :=
  c = ' ' || c = '\t' || c = '\n' || c = '\r' || c = '\x0b' || c = '\x0c' ||
  c.toNat = 0xA0 || c.toNat = 0x3000 || c.toNat = 0xFEFF

/-- `\d` (the ASCII digits). -/
def isDigitCh (c : Char) : Bool := 48 ≤ c.toNat && c.toNat ≤ 57

def isDigitComma (c : Char) : Bool := isDigitCh c || c = ','

/-- `String.prototype.trim`. -/
def jsTrim (cs : List Char) : List Char :=
  ((cs.dropWhile jsWhitespace).reverse.dropWhile jsWhitespace).reverse

/-- Numeric value of a list of decimal digit characters. -/
def natOfDigits (cs : List Char) : Nat :=
  cs.foldl (fun n c => 10 * n + (c.toNat - 48)) 0

/-- Decimal digit characters of a natural number (`fuel` keeps the
recursion structural; `natDigits` supplies enough of it). -/
def natDigitsF : Nat → Nat → List Char
  | 0, _ => []
  | fuel + 1, n =>
    if n < 10 then [Char.ofNat (48 + n)]
    else natDigitsF fuel (n / 10) ++ [Char.ofNat (48 + n % 10)]

def natDigits (n : Nat) : List Char := natDigitsF (n + 1) n

def natToStr (n : Nat) : String := String.mk (natDigits n)

/-- Split on maximal runs of separator characters, dropping empty pieces
(the way the source composes `split(/[\s|\t]+/)` with `.filter(Boolean)`).
`cur` holds the characters of the token in progress, reversed. -/
def splitRunsAux (p : Char → Bool) (cur : List Char) : List Char → List (List Char)
  | [] => if cur.isEmpty then [] else [cur.reverse]
  | c :: rest =>
    if p c then
      if cur.isEmpty then splitRunsAux p [] rest
      else cur.reverse :: splitRunsAux p [] rest
    else splitRunsAux p (c :: cur) rest

def splitRuns (p : Char → Bool) (cs : List Char) : List (List Char) :=
  splitRunsAux p [] cs

/-- JavaScript `String.prototype.split` on a single character (keeps empty
pieces). -/
def splitChar (sep : Char) : List Char → List (List Char)
  | [] => [[]]
  | c :: rest =>
    if c = sep then [] :: splitChar sep rest
    else
      match splitChar sep rest with
      | [] => [[c]]
      | t :: ts => (c :: t) :: ts

/-- JavaScript `String.prototype.includes`: `pat` occurs as a contiguous
substring. -/
def containsSub (pat : List Char) : List Char → Bool
  | [] => pat.isEmpty
  | c :: t => pat.isPrefixOf (c :: t) || containsSub pat t

def containsStr (s pat : String) : Bool := containsSub pat.data s.data

/-! ## Generic replace-scanner

`scanPass m` models a global `String.prototype.replace`: scan left to
right; at each position try the (deterministic) matcher `m`, which returns
the replacement text together with the remaining input past the match;
on failure copy one character and move on.  Fuel equals the input length;
every matcher used here consumes at least one character per match, so the
fuel never runs out on the positions actually reached. -/

def scanPassF (m : List Char → Option (List Char × List Char)) :
    Nat → List Char → List Char
  | _, [] => []
  | 0, cs => cs
  | fuel + 1, c :: rest =>
    match m (c :: rest) with
    | some (out, r) => out ++ scanPassF m fuel r
    | none => c :: scanPassF m fuel rest

def scanPass (m : List Char → Option (List Char × List Char)) (cs : List Char) : List Char :=
  scanPassF m cs.length cs

/-! ## `src/app/api/parse/route.ts` -/

/-- The dash family accepted as a missing-value marker: `[-−–—]`. -/
def dashChars : List Char := ['-', '−', '–', '—']

/-- `/^\d{4,5}$/` — the stock-code pattern. -/
def isCodeTok (t : List Char) : Bool :=
  (t.length = 4 || t.length = 5) && t.all isDigitCh

/-- The recognised unit suffixes of the numeric-token classifier:
`(?:兆円|億円|円|倍|%|％)`. -/
def unitSuffixes : List (List Char) := [['兆', '円'], ['億', '円'], ['円'], ['倍'], ['%'], ['％']]

/-- Matches `[\d,]*(?:\.\d+)?(?:兆円|億円|円|倍|%|％)?$` (the part of the
numeric-token grammar after the leading digit). -/
def numericBody (cs : List Char) : Bool :=
  let r := cs.dropWhile isDigitComma
  match r with
  | [] => true
  | '.' :: r2 =>
    let ds := r2.takeWhile isDigitCh
    let r3 := r2.dropWhile isDigitCh
    !ds.isEmpty && (r3.isEmpty || unitSuffixes.any (fun u => r3 = u))
  | _ => unitSuffixes.any (fun u => r = u)

def numericCore : List Char → Bool
  | [] => false
  | c :: rest => isDigitCh c && numericBody rest

/-- Full match of `/^[-−–—]?\d[\d,]*(?:\.\d+)?(?:兆円|億円|円|倍|%|％)?$/`. -/
def numericFullMatch : List Char → Bool
  | [] => false
  | c :: rest => if dashChars.contains c then numericCore rest else numericCore (c :: rest)

/-- Full match of `/^(?:N\/?A|n\/?a)$/i`. -/
def naToken : List Char → Bool
  | [a, b] => (a = 'N' || a = 'n') && (b = 'A' || b = 'a')
  | [a, s, b] => (a = 'N' || a = 'n') && s = '/' && (b = 'A' || b = 'a')
  | _ => false

/-- `isNumericLikeToken` from `route.ts`. -/
def isNumericLikeToken (token : String) : Bool :=
  let t := jsTrim token.data
  if t.isEmpty then false
  else if naToken t then true
  else if t.length = 1 && dashChars.contains (t.headD ' ') then true
  else numericFullMatch t

/-! ### `mergeNumberUnits` -/

/-- `replace(/％/g, "%")`. -/
def percentPass (cs : List Char) : List Char :=
  cs.map (fun c => if c = '％' then '%' else c)

/-- One match of `/N\s*\/\s*A/i` at the head of the input (returns the
rest past the match).  The `\s*` pieces are maximal-munch; since `/` and
`A` are not whitespace, backtracking into them can never succeed, so the
deterministic scan equals the regex. -/
def matchNASlash (cs : List Char) : Option (List Char) :=
  match cs with
  | [] => none
  | c :: rest =>
    if c = 'N' || c = 'n' then
      match rest.dropWhile jsWhitespace with
      | '/' :: r2 =>
        match r2.dropWhile jsWhitespace with
        | a :: r3 => if a = 'A' || a = 'a' then some r3 else none
        | [] => none
      | _ => none
    else none

def matchNAUnit (cs : List Char) : Option (List Char × List Char) :=
  (matchNASlash cs).map (fun r => (['N', '/', 'A'], r))

/-- One match of the capture group `(\d[\d,]*(?:\.\d+)?)` at the head of
the input: leading digit, maximal digit/comma run, then a dot only when
followed by at least one digit (maximal run).  Returns the captured text
and the rest.  Shorter choices for the starred parts always leave a
digit/comma/dot in a position the continuation cannot accept, so the
greedy scan equals the regex with backtracking. -/
def matchNumGroup (cs : List Char) : Option (List Char × List Char) :=
  match cs with
  | [] => none
  | c :: rest =>
    if isDigitCh c then
      let run := rest.takeWhile isDigitComma
      let r1 := rest.dropWhile isDigitComma
      match r1 with
      | '.' :: r2 =>
        let ds := r2.takeWhile isDigitCh
        if ds.isEmpty then some (c :: run, r1)
        else some ((c :: run) ++ '.' :: ds, r2.dropWhile isDigitCh)
      | _ => some (c :: run, r1)
    else none

/-- One match of `/(\d[\d,]*(?:\.\d+)?)\s*(兆|億)\s*円/` at the head,
rendered as `$1$2円`. -/
def matchTrillionBillion (cs : List Char) : Option (List Char × List Char) :=
  match matchNumGroup cs with
  | none => none
  | some (g, r) =>
    match r.dropWhile jsWhitespace with
    | u :: r2 =>
      if u = '兆' || u = '億' then
        match r2.dropWhile jsWhitespace with
        | '円' :: r3 => some (g ++ [u, '円'], r3)
        | _ => none
      else none
    | [] => none

/-- One match of `/(\d[\d,]*(?:\.\d+)?)\s*U/` at the head for a
single-character unit `U`, rendered as `$1U`. -/
def matchNumUnit (unit : Char) (cs : List Char) : Option (List Char × List Char) :=
  match matchNumGroup cs with
  | none => none
  | some (g, r) =>
    match r.dropWhile jsWhitespace with
    | u :: r2 => if u = unit then some (g ++ [u], r2) else none
    | [] => none

/-- `mergeNumberUnits` from `route.ts`: the five sequential global
replaces. -/
def mergeNumberUnits (s : List Char) : List Char :=
  let s1 := percentPass s
  let s2 := scanPass matchNAUnit s1
  let s3 := scanPass matchTrillionBillion s2
  let s4 := scanPass (matchNumUnit '円') s3
  let s5 := scanPass (matchNumUnit '倍') s4
  scanPass (matchNumUnit '%') s5

/-! ### Tokenizers -/

/-- The split class `[\s|\t]`. -/
def isRowSep (c : Char) : Bool := jsWhitespace c || c = '|'

/-- `replace(/\s+/g, " ")`: each maximal whitespace run becomes one
space (`prevWS` records whether the previous character was whitespace). -/
def collapseWSAux (prevWS : Bool) : List Char → List Char
  | [] => []
  | c :: rest =>
    if jsWhitespace c then
      if prevWS then collapseWSAux true rest else ' ' :: collapseWSAux true rest
    else c :: collapseWSAux false rest

def collapseWS (cs : List Char) : List Char := collapseWSAux false cs

/-- `/^\(.+\)$/` — a fully parenthesised token. -/
def isParenTok (t : List Char) : Bool :=
  3 ≤ t.length && t.head? = some '(' && t.getLast? = some ')'

def headerDropSet : List String := ["銘柄", "企業名", "銘柄名", "コード", "code", "name", "操作"]

/-- Left-to-right merge of parenthesised tokens into their predecessor
(accumulator is reversed). -/
def joinParenAux (acc : List (List Char)) : List (List Char) → List (List Char)
  | [] => acc.reverse
  | t :: rest =>
    if isParenTok t then
      match acc with
      | a :: as => joinParenAux ((a ++ ' ' :: t) :: as) rest
      | [] => joinParenAux (t :: acc) rest
    else joinParenAux (t :: acc) rest

/-- `tokenizeHeader` from `route.ts`. -/
def tokenizeHeader (line : String) : List String :=
  let toks := splitRuns isRowSep (jsTrim line.data)
  ((joinParenAux [] toks).map String.mk).filter (fun t => !headerDropSet.contains t)

/-- `tokenizeRow` from `route.ts`. -/
def tokenizeRow (line : String) : List String :=
  let normalized := jsTrim (collapseWS (mergeNumberUnits line.data))
  (splitRuns isRowSep normalized).map String.mk

/-! ### The heuristic parser -/

def headerKeywords : List (List Char) :=
  ["PER".data, "PBR".data, "ROE".data, "時価総額".data, "企業価値".data]

def letterClassCh (c : Char) : Bool :=
  ('A' ≤ c && c ≤ 'Z') || ('a' ≤ c && c ≤ 'z') ||
  (0x3040 ≤ c.toNat && c.toNat ≤ 0x30FF) || (0x4E00 ≤ c.toNat && c.toNat ≤ 0x9FAF)

/-- Test of `/[A-Za-z぀-ヿ一-龯].*(PER|PBR|ROE|時価総額|企業価値)/`
on a line (no line terminators occur, so `.` is every character). -/
def headerLineTest : List Char → Bool
  | [] => false
  | c :: rest =>
    (letterClassCh c && headerKeywords.any (fun k => containsSub k rest)) || headerLineTest rest

structure ParsedRow where
  code : Option String
  name : Option String
  vals : List (String × String)
deriving DecidableEq

/-- JavaScript property assignment on a record modelled as an ordered
association list: overwrite in place, or append a fresh key. -/
def setVal : List (String × String) → String → String → List (String × String)
  | [], k, v => [(k, v)]
  | (k', v') :: rest, k, v =>
    if k' = k then (k, v) :: rest else (k', v') :: setVal rest k v

def lookupVal (r : ParsedRow) (k : String) : Option String :=
  (r.vals.find? (fun p => p.1 == k)).map (fun p => p.2)

def rowKeys (r : ParsedRow) : List String := r.vals.map (fun p => p.1)

def numericCountOf (headers : List String) : Nat :=
  if headers.getLast? = some "特徴語" then headers.length - 1 else headers.length

/-- The body of the offset-scanning loop: offset `i` is acceptable when
`numericCount` tokens fit and are all numeric-like. -/
def windowOK (rest : List String) (nc i : Nat) : Bool :=
  decide (i + nc ≤ rest.length) && ((rest.drop i).take nc).all isNumericLikeToken

/-- `for (let i = 1; i <= rest.length; i++) ...` — the first acceptable
offset among `1, …, rest.length`. -/
def findJ (rest : List String) (nc : Nat) : Option Nat :=
  (List.range' 1 rest.length).find? (fun i => windowOK rest nc i)

def joinSp (ts : List String) : String := String.intercalate " " ts

/-- `row[headers[k]] = values[k] ?? ""` for `k = 0 .. n-1`. -/
def assignRange (headers values : List String) (n : Nat) (m : List (String × String)) :
    List (String × String) :=
  (List.range n).foldl (fun acc k => setVal acc (headers.getD k "") (values.getD k "")) m

/-- `valueTokens.forEach((val, i) => row[`col_i+1`] = val)`. -/
def assignCols (values : List String) : List (String × String) :=
  (List.range values.length).foldl
    (fun acc i => setVal acc ("col_" ++ natToStr (i + 1)) (values.getD i "")) []

def jsFalsyName : Option String → Bool
  | none => true
  | some s => s = ""

/-- The per-data-line body of `heuristicParse` (`tokens` is the result of
`tokenizeRow` and is non-empty at every call site). -/
def buildRow (headers : List String) (tokens : List String) : ParsedRow :=
  let code : Option String :=
    match tokens.head? with
    | some t => if isCodeTok t.data then some t else none
    | none => none
  let tentName : Option String := if code.isSome then tokens[1]? else none
  let name0 : Option String := if jsFalsyName tentName then tokens.head? else tentName
  let rest := if code.isSome then tokens.drop 1 else tokens
  if 0 < headers.length then
    let nc := numericCountOf headers
    match findJ rest nc with
    | some j =>
      let numericValues := (rest.drop j).take nc
      let vals1 := assignRange headers numericValues nc []
      let vals2 :=
        if headers.getLast? = some "特徴語" then
          setVal vals1 (headers.getLastD "") (joinSp (rest.drop (j + nc)))
        else vals1
      { code := code, name := some (joinSp (rest.take j)), vals := vals2 }
    | none =>
      let valueTokens := if code.isSome then tokens.drop 2 else tokens.drop 1
      { code := code, name := name0,
        vals := assignRange headers valueTokens (min headers.length valueTokens.length) [] }
  else
    let valueTokens := if code.isSome then tokens.drop 2 else tokens.drop 1
    { code := code, name := name0, vals := assignCols valueTokens }

structure ParsedTable where
  headers : List String
  rows : List ParsedRow
deriving DecidableEq

/-- `/\r\n?/g → "\n"`. -/
def normNewlines : List Char → List Char
  | [] => []
  | '\r' :: '\n' :: rest => '\n' :: normNewlines rest
  | '\r' :: rest => '\n' :: normNewlines rest
  | c :: rest => c :: normNewlines rest

/-- The trimmed non-empty lines of the input. -/
def hpLines (text : String) : List String :=
  ((splitChar '\n' (normNewlines text.data)).map jsTrim).filterMap
    (fun l => if l.isEmpty then none else some (String.mk l))

/-- Headers: tokenized first header-looking line, `[]` when none. -/
def hpHeaders (text : String) : List String :=
  match (hpLines text).findIdx? (fun l => headerLineTest l.data) with
  | some i => tokenizeHeader ((hpLines text).getD i "")
  | none => []

/-- Data lines: everything after the header line, or all lines. -/
def hpDataLines (text : String) : List String :=
  match (hpLines text).findIdx? (fun l => headerLineTest l.data) with
  | some i => (hpLines text).drop (i + 1)
  | none => hpLines text

/-- `heuristicParse` from `route.ts`. -/
def heuristicParse (text : String) : ParsedTable :=
  ⟨hpHeaders text,
   (hpDataLines text).filterMap
    (fun l =>
      let toks := tokenizeRow l
      if toks.length < 1 then none else some (buildRow (hpHeaders text) toks))⟩

/-! ### The oracle validator and the POST fallback -/

/-- An object parsed out of the oracle's reply, as far as the validator
inspects it: `headers` when present is an array (its elements pass through
`String(…)`, modelled as the strings themselves), `rows` when present is
an array of records. -/
structure Candidate where
  headers : Option (List String)
  rows : Option (List (List (String × String)))
deriving DecidableEq

def mustHaveKeywords : List String := ["PER", "時価", "企業価値", "ROE", "売上"]

/-- `isValidParsed` from `route.ts`. -/
def isValidParsed (c : Candidate) : Bool :=
  match c.headers, c.rows with
  | some hs, some rs =>
    decide (5 ≤ hs.length) &&
    mustHaveKeywords.any (fun k => containsStr (String.intercalate "\n" hs) k) &&
    !rs.isEmpty
  | _, _ => false

inductive ParseOutcome where
  | fromOracle (c : Candidate)
  | fromHeuristic (t : ParsedTable)
deriving DecidableEq

/-- The `POST` handler's decision once the input text is non-empty:
`oracle = none` stands for any oracle failure before validation (missing
key, network error, no JSON braces, `JSON.parse` throw); a candidate is
returned only when `isValidParsed` accepts it, otherwise the heuristic
parse of the text is returned. -/
def postParse (oracle : Option Candidate) (text : String) : ParseOutcome :=
  match oracle with
  | some c => if isValidParsed c then .fromOracle c else .fromHeuristic (heuristicParse text)
  | none => .fromHeuristic (heuristicParse text)

/-! ## `src/lib/metrics.ts`

JavaScript numbers-or-null are modelled by `JVal`: `null`, `NaN`, or a
finite value as an exact rational (float rounding and overflow to `±∞`
are outside the model). -/

inductive JVal where
  | null
  | nan
  | num (q : ℚ)
deriving DecidableEq

def headIs (c : Char) : List Char → Bool
  | d :: _ => d = c
  | [] => false

/-- `Number.parseFloat` after the optional sign: digits with optional
fraction, then an exponent only when `e`/`E` is followed by an optionally
signed digit run; trailing garbage is ignored; `none` models `NaN`. -/
def parseFloatBody (s1 : List Char) (sgn : ℚ) : Option ℚ :=
  let intd := s1.takeWhile isDigitCh
  let r1 := s1.dropWhile isDigitCh
  let fracd := if headIs '.' r1 then r1.tail.takeWhile isDigitCh else []
  let r2 := if headIs '.' r1 then r1.tail.dropWhile isDigitCh else r1
  if intd.isEmpty && fracd.isEmpty then none
  else
    let mant : ℚ := (natOfDigits (intd ++ fracd) : ℚ) / 10 ^ fracd.length
    let hasExp := headIs 'e' r2 || headIs 'E' r2
    let e1 := r2.tail
    let eSgn : ℤ := if headIs '-' e1 then -1 else 1
    let e2 := if headIs '-' e1 || headIs '+' e1 then e1.tail else e1
    let eds := e2.takeWhile isDigitCh
    let expo : ℤ := if hasExp && !eds.isEmpty then eSgn * (natOfDigits eds : ℤ) else 0
    some (sgn * mant * 10 ^ expo)

/-- `Number.parseFloat`: skip leading whitespace, optional sign, then the
longest valid decimal-literal prefix. -/
def parseFloatQ (cs : List Char) : Option ℚ :=
  let s0 := cs.dropWhile jsWhitespace
  if headIs '-' s0 then parseFloatBody s0.tail (-1)
  else if headIs '+' s0 then parseFloatBody s0.tail 1
  else parseFloatBody s0 1

/-- `Number.parseInt(s, 10)`: skip whitespace, optional sign, leading
digit run; `none` models `NaN`. -/
def parseIntQ (cs : List Char) : Option ℤ :=
  let s0 := cs.dropWhile jsWhitespace
  let sgn : ℤ := if headIs '-' s0 then -1 else 1
  let s1 := if headIs '-' s0 || headIs '+' s0 then s0.tail else s0
  let ds := s1.takeWhile isDigitCh
  if ds.isEmpty then none else some (sgn * (natOfDigits ds : ℤ))

/-- One match of `/LIT円?/` at the head for a literal `lit` (such as `兆`
or `百万`), replaced by `repl`: the optional `円` is taken greedily. -/
def matchLitOptYen (lit repl cs : List Char) : Option (List Char × List Char) :=
  if lit.isPrefixOf cs then
    let r := cs.drop lit.length
    match r with
    | '円' :: r2 => some (repl, r2)
    | _ => some (repl, r)
  else none

/-- The four character-stripping replaces of `parseJapaneseNumber`
(`円`, `倍`, `%`, `,` — innermost first). -/
def stripChars (cs : List Char) : List Char :=
  (((cs.filter (fun c => !(c = '円'))).filter (fun c => !(c = '倍'))).filter
      (fun c => !(c = '%'))).filter (fun c => !(c = ','))

/-- The unit-substitution chain of `parseJapaneseNumber`, in source
order: `兆円?→e12`, `億円?→e8`, `百万円?→e6`, `千円?→e3`, then the four
character strips. -/
def pjnUnits (cs : List Char) : List Char :=
  stripChars
    (scanPass (matchLitOptYen ['千'] ['e', '3'])
      (scanPass (matchLitOptYen ['百', '万'] ['e', '6'])
        (scanPass (matchLitOptYen ['億'] ['e', '8'])
          (scanPass (matchLitOptYen ['兆'] ['e', '1', '2']) cs))))

/-- The numeric tail of `parseJapaneseNumber`: the `e`-splitting branch,
falling through to a plain `parseFloat`. -/
def pjnNumeric (numStr : List Char) : Option ℚ :=
  if numStr.contains 'e' then
    match splitChar 'e' numStr with
    | [p0, p1] =>
      (match parseFloatQ p0, parseIntQ p1 with
       | some b, some e => some (b * 10 ^ e)
       | _, _ => parseFloatQ numStr)
    | _ => parseFloatQ numStr
  else parseFloatQ numStr

/-- `parseJapaneseNumber` from `metrics.ts`. -/
def parseJapaneseNumber (value : String) : Option ℚ :=
  let cleaned := jsTrim value.data
  if cleaned = ['-'] || cleaned.isEmpty || cleaned = ['N', '/', 'A'] then none
  else pjnNumeric (pjnUnits cleaned)

structure CompanyMetrics where
  code : String
  name : String
  metrics : List (String × JVal)
deriving DecidableEq

def metricLookup (m : List (String × JVal)) (k : String) : Option JVal :=
  (m.find? (fun p => p.1 == k)).map (fun p => p.2)

/-- The key set collected by `calculateAverages`, in `Set` insertion
order (first occurrence wins). -/
def allMetricKeys (companies : List CompanyMetrics) : List String :=
  companies.foldl
    (fun acc c =>
      c.metrics.foldl (fun acc2 p => if acc2.contains p.1 then acc2 else acc2 ++ [p.1]) acc)
    []

/-- `companies.map(c => c.metrics[key]).filter(v => v !== null && !isNaN(v))`:
a missing key yields `undefined`, which the `isNaN` test also removes. -/
def contributingValues (companies : List CompanyMetrics) (k : String) : List ℚ :=
  companies.filterMap
    (fun c =>
      match metricLookup c.metrics k with
      | some (JVal.num q) => some q
      | _ => none)

/-- `calculateAverages` from `metrics.ts`. -/
def calculateAverages (companies : List CompanyMetrics) : List (String × Option ℚ) :=
  if companies.isEmpty then []
  else
    (allMetricKeys companies).map
      (fun k =>
        let values := contributingValues companies k
        (k, if 0 < values.length then some (values.sum / (values.length : ℚ)) else none))

/-- Modelled from the amended aggregate-mean claim, for comparison with
`calculateAverages`: the exact arithmetic mean over the non-null,
non-`NaN` values, `none` when no value contributes. -/
def meanSpec (companies : List CompanyMetrics) (k : String) : Option ℚ :=
  let values := contributingValues companies k
  if values.isEmpty then none else some (values.sum / (values.length : ℚ))

/-- The integer `n` selected by `Number.prototype.toFixed(f)`:
`n / 10^f` is nearest to the value, ties to the larger `n`. -/
def toFixedInt (q : ℚ) (f : Nat) : ℤ := ⌊q * 10 ^ f + 1 / 2⌋

def padLeftZeros (cs : List Char) (n : Nat) : List Char :=
  List.replicate (n - cs.length) '0' ++ cs

def renderFixedNat (m f : Nat) : List Char :=
  if f = 0 then natDigits m
  else natDigits (m / 10 ^ f) ++ '.' :: padLeftZeros (natDigits (m % 10 ^ f)) f

/-- `toFixed(f)` (the decimal form; the sign of a negative zero is
dropped by the model). -/
def toFixedQ (q : ℚ) (f : Nat) : List Char :=
  let n := toFixedInt q f
  if n < 0 then '-' :: renderFixedNat n.natAbs f else renderFixedNat n.toNat f

/-- `Intl` rounding (`halfExpand`): ties away from zero. -/
def roundHalfAway (x : ℚ) : ℤ := if 0 ≤ x then ⌊x + 1 / 2⌋ else -⌊-x + 1 / 2⌋

/-- Group a digit string with thousands separators (input reversed). -/
def groupRev : List Char → List Char
  | a :: b :: c :: d :: rest => a :: b :: c :: ',' :: groupRev (d :: rest)
  | l => l

def groupThousands (ds : List Char) : List Char := (groupRev ds.reverse).reverse

def dropTrailingZeros (cs : List Char) : List Char :=
  (cs.reverse.dropWhile (fun c => c = '0')).reverse

/-- The (at most 3) fraction digits of a locale rendering of `m/1000`,
trailing zeros removed. -/
def locFrac (m : Nat) : List Char :=
  dropTrailingZeros (padLeftZeros (natDigits (m % 1000)) 3)

/-- The unsigned body of a locale rendering of `m/1000`. -/
def locBody (m : Nat) : List Char :=
  groupThousands (natDigits (m / 1000)) ++
    (if (locFrac m).isEmpty then [] else '.' :: locFrac m)

/-- `Number.prototype.toLocaleString("ja-JP")`: round to at most 3
fraction digits (ties away from zero), group the integer part by
thousands, drop trailing fraction zeros. -/
def toLocaleStringQ (q : ℚ) : String :=
  if roundHalfAway (q * 1000) < 0 then
    String.mk ('-' :: locBody (roundHalfAway (q * 1000)).natAbs)
  else String.mk (locBody (roundHalfAway (q * 1000)).natAbs)

/-- `formatJapaneseNumber` from `metrics.ts`. -/
def formatJapaneseNumber (value : JVal) (unit : Option String) : String :=
  match value with
  | .null => "-"
  | .nan => "-"
  | .num q =>
    match unit with
    | none =>
      if (10 : ℚ) ^ 12 ≤ q then String.mk (toFixedQ (q / 10 ^ 12) 2) ++ "兆円"
      else if (10 : ℚ) ^ 8 ≤ q then String.mk (toFixedQ (q / 10 ^ 8) 0) ++ "億円"
      else if (10 : ℚ) ^ 6 ≤ q then String.mk (toFixedQ (q / 10 ^ 6) 0) ++ "百万円"
      else toLocaleStringQ q
    | some u =>
      if containsStr u "兆" then String.mk (toFixedQ (q / 10 ^ 12) 2) ++ "兆円"
      else if containsStr u "億" then String.mk (toFixedQ (q / 10 ^ 8) 0) ++ "億円"
      else if containsStr u "倍" then String.mk (toFixedQ q 2) ++ "倍"
      else if containsStr u "%" then String.mk (toFixedQ q 2) ++ "%"
      else toLocaleStringQ q

/-! ## `src/app/page.tsx` — `calculatePSR` / `calculatePSRFromRow`

Both copies of the helper are identical; the embedding takes the two cell
strings (`企業価値`, `売上`) as arguments, a missing cell arriving as `""`
(`row[key] ?? ""` / `row.企業価値 || ""`). -/

/-- One match of `/([\d,]+\.?\d*)\s*億円/` at the head: maximal
digit/comma run, greedy optional dot with maximal digit run, maximal
whitespace, then the literal `億円`.  All rejected backtracking
alternatives leave a digit, comma or dot where the continuation needs
whitespace or `億`, so the greedy scan equals the regex. -/
def matchEVAt (cs : List Char) : Option (List Char) :=
  match cs with
  | [] => none
  | c :: rest =>
    if isDigitComma c then
      let run := rest.takeWhile isDigitComma
      let r1 := rest.dropWhile isDigitComma
      let g := match r1 with | '.' :: r => (c :: run) ++ '.' :: r.takeWhile isDigitCh | _ => c :: run
      let r2 := match r1 with | '.' :: r => r.dropWhile isDigitCh | _ => r1
      if ['億', '円'].isPrefixOf (r2.dropWhile jsWhitespace) then some g else none
    else none

/-- Leftmost match of `/([\d,]+\.?\d*)\s*億円/`, returning capture 1. -/
def scanEV : List Char → Option (List Char)
  | [] => none
  | c :: rest =>
    match matchEVAt (c :: rest) with
    | some g => some g
    | none => scanEV rest

/-- `parseEV`: outer `none` models the `null` of a failed match, inner
`none` the `NaN` of `parseFloat` on an all-comma capture. -/
def parseEV (s : String) : Option (Option ℚ) :=
  (scanEV s.data).map (fun g => parseFloatQ (g.filter (fun c => !(c = ','))))

/-- Capture of `/([\d,]+\.?\d*)/` at the head (always succeeds on a
digit/comma character). -/
def matchSalesAt (cs : List Char) : Option (List Char) :=
  match cs with
  | [] => none
  | c :: rest =>
    if isDigitComma c then
      let run := rest.takeWhile isDigitComma
      let r1 := rest.dropWhile isDigitComma
      some (match r1 with | '.' :: r => (c :: run) ++ '.' :: r.takeWhile isDigitCh | _ => c :: run)
    else none

def scanSales : List Char → Option (List Char)
  | [] => none
  | c :: rest =>
    match matchSalesAt (c :: rest) with
    | some g => some g
    | none => scanSales rest

/-- `parseSales`: the captured number is in 百万円 and is rescaled to
億円 by `* 0.01` (exact `1/100` in the rational model). -/
def parseSales (s : String) : Option (Option ℚ) :=
  (scanSales s.data).map
    (fun g => (parseFloatQ (g.filter (fun c => !(c = ',')))).map (fun x => x * (1 / 100)))

/-- Division with `NaN` propagation (`0/0`; a nonzero dividend over zero
is unreachable behind `calculatePSR`'s `sales === 0` guard). -/
def jsDiv (a b : Option ℚ) : Option ℚ :=
  match a, b with
  | some x, some y => if y = 0 then none else some (x / y)
  | _, _ => none

def toFixed2OrNaN (v : Option ℚ) : String :=
  match v with
  | some q => String.mk (toFixedQ q 2)
  | none => "NaN"

/-- `calculatePSR` from `page.tsx` (also `calculatePSRFromRow`, an
identical copy). -/
def calculatePSR (evStr salesStr : String) : String :=
  if evStr = "" || salesStr = "" then "N/A"
  else
    match parseEV evStr, parseSales salesStr with
    | none, _ => "N/A"
    | _, none => "N/A"
    | some ev, some sales =>
      if sales = some 0 then "N/A"
      else toFixed2OrNaN (jsDiv ev sales)

/-- Modelled from the claim's words, for comparison with `matchEVAt`:
the numeric group must be immediately followed by `億円`, with no
whitespace allowed in between. -/
def specEVAt (cs : List Char) : Option (List Char) :=
  match cs with
  | [] => none
  | c :: rest =>
    if isDigitComma c then
      let run := rest.takeWhile isDigitComma
      let r1 := rest.dropWhile isDigitComma
      let g := match r1 with | '.' :: r => (c :: run) ++ '.' :: r.takeWhile isDigitCh | _ => c :: run
      let r2 := match r1 with | '.' :: r => r.dropWhile isDigitCh | _ => r1
      if ['億', '円'].isPrefixOf r2 then some g else none
    else none

def specEVExtract : List Char → Option (List Char)
  | [] => none
  | c :: rest =>
    match specEVAt (c :: rest) with
    | some g => some g
    | none => specEVExtract rest

/-! ## `src/unnamed/part_003` — time-series PER/PSR annotation

The Yahoo statements arrive most-recent-first; only the fields the
annotation reads are modelled.  `endYear` is
`new Date(stmt.endDate).getFullYear()` (absent when `endDate` is
missing); `revenue` is `financialData.totalRevenue ?? null`;
`currentYear` is `new Date().getFullYear()`. -/

structure Stmt where
  endYear : Option ℤ
  netIncome : Option ℚ
  totalRevenue : Option ℚ
deriving DecidableEq

structure FinancialSnapshot where
  annualStatements : List Stmt
  quarterlyStatements : List Stmt
  revenue : Option ℚ
  sharesOutstanding : Option ℚ
  currentYear : ℤ
deriving DecidableEq

/-- TTM net income: the sum of the 4 most recent quarterly figures
(`?? 0` per missing field), only when at least 4 quarters exist. -/
def ttmNetIncome (inp : FinancialSnapshot) : Option ℚ :=
  if 4 ≤ inp.quarterlyStatements.length then
    some (((inp.quarterlyStatements.take 4).map (fun s => s.netIncome.getD 0)).sum)
  else none

def yearMapSet : List (ℤ × ℚ) → ℤ → ℚ → List (ℤ × ℚ)
  | [], k, v => [(k, v)]
  | (k', v') :: rest, k, v =>
    if k' = k then (k, v) :: rest else (k', v') :: yearMapSet rest k v

def yearMapGet (m : List (ℤ × ℚ)) (k : ℤ) : Option ℚ :=
  (m.find? (fun p => p.1 == k)).map (fun p => p.2)

/-- `annualNetIncomeMap`: fiscal year → net income, later statements
overwriting earlier ones with the same year. -/
def annualNetIncomeMap (inp : FinancialSnapshot) : List (ℤ × ℚ) :=
  inp.annualStatements.foldl
    (fun m s =>
      match s.endYear, s.netIncome with
      | some y, some ni => yearMapSet m y ni
      | _, _ => m)
    []

/-- `annualRevenueMap`: fiscal year → total revenue. -/
def annualRevenueMap (inp : FinancialSnapshot) : List (ℤ × ℚ) :=
  inp.annualStatements.foldl
    (fun m s =>
      match s.endYear, s.totalRevenue with
      | some y, some rv => yearMapSet m y rv
      | _, _ => m)
    []

def latestFiscalYear (inp : FinancialSnapshot) : ℤ :=
  match inp.annualStatements with
  | s :: _ => match s.endYear with | some y => y | none => inp.currentYear
  | [] => inp.currentYear

/-- `getNetIncomeForDate` from `part_003` (on the point's calendar
year). -/
def getNetIncomeForDate (inp : FinancialSnapshot) (year : ℤ) : Option ℚ :=
  if latestFiscalYear inp ≤ year then ttmNetIncome inp
  else yearMapGet (annualNetIncomeMap inp) (year + 1)

/-- `getRevenueForDate` from `part_003`. -/
def getRevenueForDate (inp : FinancialSnapshot) (year : ℤ) : Option ℚ :=
  if latestFiscalYear inp ≤ year then inp.revenue
  else yearMapGet (annualRevenueMap inp) (year + 1)

structure PricePoint where
  year : ℤ
  close : ℚ
deriving DecidableEq

/-- `marketCap = point.close * sharesOutstanding`, only when
`sharesOutstanding` is truthy and `point.close > 0`. -/
def marketCapOf (inp : FinancialSnapshot) (p : PricePoint) : Option ℚ :=
  match inp.sharesOutstanding with
  | some sh => if sh ≠ 0 ∧ 0 < p.close then some (p.close * sh) else none
  | none => none

/-- The `per` annotation of one price point:
`if (marketCap && netIncomeForPeriod && netIncomeForPeriod > 0)`. -/
def perOf (inp : FinancialSnapshot) (p : PricePoint) : Option ℚ :=
  match marketCapOf inp p, getNetIncomeForDate inp p.year with
  | some mc, some ni => if mc ≠ 0 ∧ ni ≠ 0 ∧ 0 < ni then some (mc / ni) else none
  | _, _ => none

/-- The `psr` annotation of one price point. -/
def psrOf (inp : FinancialSnapshot) (p : PricePoint) : Option ℚ :=
  match marketCapOf inp p, getRevenueForDate inp p.year with
  | some mc, some rv => if mc ≠ 0 ∧ rv ≠ 0 ∧ 0 < rv then some (mc / rv) else none
  | _, _ => none

/-- The character class of a `toFixed` rendering. -/
def fixedClass (c : Char) : Prop := isDigitCh c = true ∨ c = '.' ∨ c = '-'

instance (c : Char) : Decidable (fixedClass c) :=
  inferInstanceAs (Decidable (isDigitCh c = true ∨ c = '.' ∨ c = '-'))

/-- `fixedClass` plus `e` and the digits of the exponent markers. -/
def expClass (c : Char) : Prop := fixedClass c ∨ c = 'e' ∨ isDigitCh c = true

instance (c : Char) : Decidable (expClass c) :=
  inferInstanceAs (Decidable (fixedClass c ∨ c = 'e' ∨ isDigitCh c = true))

/-- The character class of a `toLocaleString` rendering. -/
def localeClass (c : Char) : Prop := isDigitCh c = true ∨ c = ',' ∨ c = '.' ∨ c = '-'

instance (c : Char) : Decidable (localeClass c) :=
  inferInstanceAs (Decidable (isDigitCh c = true ∨ c = ',' ∨ c = '.' ∨ c = '-'))

/-! ## Infrastructure lemmas: characters, digits, rendered numerals -/

theorem char_eq_iff_toNat (c d : Char) : c = d ↔ c.toNat = d.toNat := by
  rw [Char.ext_iff, UInt32.ext_iff]
  rfl

theorem isDigitCh_toNat {c : Char} (h : isDigitCh c = true) :
    48 ≤ c.toNat ∧ c.toNat ≤ 57 := by
  simpa [isDigitCh] using h

theorem isDigitCh_not_ws {c : Char} (h : isDigitCh c = true) : jsWhitespace c = false := by
  have hb := isDigitCh_toNat h
  have e1 : (' ' : Char).toNat = 32 := rfl
  have e2 : ('\t' : Char).toNat = 9 := rfl
  have e3 : ('\n' : Char).toNat = 10 := rfl
  have e4 : ('\r' : Char).toNat = 13 := rfl
  have e5 : ('\x0b' : Char).toNat = 11 := rfl
  have e6 : ('\x0c' : Char).toNat = 12 := rfl
  simp only [jsWhitespace, char_eq_iff_toNat, Bool.or_eq_false_iff,
    decide_eq_false_iff_not, e1, e2, e3, e4, e5, e6]
  omega

theorem isDigitCh_ne {c d : Char} (h : isDigitCh c = true) (hd : isDigitCh d = false) :
    c ≠ d := by
  intro hcd
  rw [hcd] at h
  rw [h] at hd
  cases hd

theorem ofNat_digit_toNat {d : Nat} (h : d < 10) : (Char.ofNat (48 + d)).toNat = 48 + d := by
  interval_cases d <;> rfl

theorem ofNat_digit_isDigitCh {d : Nat} (h : d < 10) : isDigitCh (Char.ofNat (48 + d)) = true := by
  interval_cases d <;> rfl

theorem natOfDigits_foldl (cs : List Char) (i : Nat) :
    cs.foldl (fun n c => 10 * n + (c.toNat - 48)) i = i * 10 ^ cs.length + natOfDigits cs := by
  induction cs generalizing i with
  | nil => simp [natOfDigits]
  | cons c cs ih =>
    have hc : natOfDigits (c :: cs) = (c.toNat - 48) * 10 ^ cs.length + natOfDigits cs := by
      have h0 : natOfDigits (c :: cs) =
          List.foldl (fun n c => 10 * n + (c.toNat - 48)) (10 * 0 + (c.toNat - 48)) cs := rfl
      rw [h0, ih]
      norm_num
    simp only [List.foldl_cons]
    rw [ih, hc, List.length_cons, pow_succ]
    ring

theorem natOfDigits_append (a b : List Char) :
    natOfDigits (a ++ b) = natOfDigits a * 10 ^ b.length + natOfDigits b := by
  unfold natOfDigits
  rw [List.foldl_append]
  exact natOfDigits_foldl b _

theorem natOfDigits_singleton (c : Char) : natOfDigits [c] = c.toNat - 48 := by
  simp [natOfDigits]

theorem natDigitsF_fuel : ∀ n fuel fuel', n < fuel → n < fuel' →
    natDigitsF fuel n = natDigitsF fuel' n := by
  intro n
  induction n using Nat.strong_induction_on with
  | _ n ih =>
    intro fuel fuel' hf hf'
    obtain ⟨f, rfl⟩ : ∃ f, fuel = f + 1 := ⟨fuel - 1, by omega⟩
    obtain ⟨f', rfl⟩ : ∃ f', fuel' = f' + 1 := ⟨fuel' - 1, by omega⟩
    by_cases h10 : n < 10
    · simp [natDigitsF, h10]
    · have hlt : n / 10 < n := Nat.div_lt_self (by omega) (by omega)
      have h1 : n / 10 < f := by omega
      have h2 : n / 10 < f' := by omega
      simp only [natDigitsF, if_neg h10]
      rw [ih (n / 10) hlt f f' h1 h2]

theorem natDigits_eq (n : Nat) :
    natDigits n =
      if n < 10 then [Char.ofNat (48 + n)]
      else natDigits (n / 10) ++ [Char.ofNat (48 + n % 10)] := by
  show natDigitsF (n + 1) n = _
  by_cases h10 : n < 10
  · simp [natDigitsF, h10]
  · simp only [natDigitsF, if_neg h10]
    rw [natDigitsF_fuel (n / 10) n (n / 10 + 1) (by omega)
      (by omega)]
    rfl

theorem natDigits_ne_nil (n : Nat) : natDigits n ≠ [] := by
  rw [natDigits_eq]
  split <;> simp

theorem natDigits_all_digit : ∀ n, ∀ c ∈ natDigits n, isDigitCh c = true := by
  intro n
  induction n using Nat.strong_induction_on with
  | _ n ih =>
    intro c hc
    rw [natDigits_eq] at hc
    split at hc
    · next h =>
      simp only [List.mem_singleton] at hc
      subst hc
      exact ofNat_digit_isDigitCh h
    · next h =>
      rcases List.mem_append.mp hc with h1 | h2
      · exact ih (n / 10) (Nat.div_lt_self (by omega) (by omega)) c h1
      · simp only [List.mem_singleton] at h2
        subst h2
        exact ofNat_digit_isDigitCh (Nat.mod_lt _ (by omega))

theorem natOfDigits_natDigits : ∀ n, natOfDigits (natDigits n) = n := by
  intro n
  induction n using Nat.strong_induction_on with
  | _ n ih =>
    rw [natDigits_eq]
    split
    · next h =>
      rw [natOfDigits_singleton, ofNat_digit_toNat h]
      omega
    · next h =>
      rw [natOfDigits_append, natOfDigits_singleton,
        ofNat_digit_toNat (Nat.mod_lt _ (by omega)),
        ih (n / 10) (Nat.div_lt_self (by omega) (by omega))]
      simp only [List.length_singleton, pow_one]
      omega

theorem natDigits_length_le : ∀ k n, n < 10 ^ (k + 1) → (natDigits n).length ≤ k + 1 := by
  intro k
  induction k with
  | zero =>
    intro n h
    rw [natDigits_eq]
    split
    · simp
    · next hn => simp at h; omega
  | succ k ih =>
    intro n h
    rw [natDigits_eq]
    split
    · simp
    · next hn =>
      have hdiv : n / 10 < 10 ^ (k + 1) := by
        rw [Nat.div_lt_iff_lt_mul (by omega)]
        calc n < 10 ^ (k + 1 + 1) := h
        _ = 10 ^ (k + 1) * 10 := by ring
      have := ih (n / 10) hdiv
      simp only [List.length_append, List.length_singleton]
      omega

theorem takeWhile_append_stop {p : Char → Bool} {xs : List Char} {y : Char} {ys : List Char}
    (hx : ∀ c ∈ xs, p c = true) (hy : p y = false) :
    (xs ++ y :: ys).takeWhile p = xs ∧ (xs ++ y :: ys).dropWhile p = y :: ys := by
  induction xs with
  | nil => simp [List.takeWhile_cons, List.dropWhile_cons, hy]
  | cons c cs ih =>
    have hc : p c = true := hx c (by simp)
    have := ih (fun d hd => hx d (by simp [hd]))
    simp [List.takeWhile_cons, List.dropWhile_cons, hc, this.1, this.2]

theorem takeWhile_all {p : Char → Bool} {xs : List Char} (hx : ∀ c ∈ xs, p c = true) :
    xs.takeWhile p = xs ∧ xs.dropWhile p = [] := by
  induction xs with
  | nil => simp
  | cons c cs ih =>
    have hc : p c = true := hx c (by simp)
    have := ih (fun d hd => hx d (by simp [hd]))
    simp [List.takeWhile_cons, List.dropWhile_cons, hc, this.1, this.2]

theorem natOfDigits_replicate_zero (k : Nat) : natOfDigits (List.replicate k '0') = 0 := by
  induction k with
  | zero => rfl
  | succ k ih =>
    have h0 : natOfDigits ('0' :: List.replicate k '0') =
        List.foldl (fun n c => 10 * n + (c.toNat - 48)) (10 * 0 + ('0'.toNat - 48))
          (List.replicate k '0') := rfl
    have h48 : '0'.toNat - 48 = 0 := rfl
    rw [List.replicate_succ, h0, natOfDigits_foldl, h48, ih]
    norm_num

theorem natOfDigits_padLeft (cs : List Char) (n : Nat) :
    natOfDigits (padLeftZeros cs n) = natOfDigits cs := by
  unfold padLeftZeros
  rw [natOfDigits_append, natOfDigits_replicate_zero]
  simp

theorem padLeft_length {cs : List Char} {n : Nat} (h : cs.length ≤ n) :
    (padLeftZeros cs n).length = n := by
  simp [padLeftZeros]
  omega

theorem padLeft_all_digit {cs : List Char} {n : Nat} (h : ∀ c ∈ cs, isDigitCh c = true) :
    ∀ c ∈ padLeftZeros cs n, isDigitCh c = true := by
  intro c hc
  rcases List.mem_append.mp hc with h1 | h2
  · have := List.eq_of_mem_replicate h1
    subst this
    rfl
  · exact h c h2

/-! ## Infrastructure lemmas: the replace-scanner -/

theorem scanPassF_nil (m : List Char → Option (List Char × List Char)) (fuel : Nat) :
    scanPassF m fuel [] = [] := by
  cases fuel <;> rfl

theorem scanPassF_cons (m : List Char → Option (List Char × List Char)) (fuel : Nat)
    (c : Char) (rest : List Char) :
    scanPassF m (fuel + 1) (c :: rest) =
      match m (c :: rest) with
      | some (out, r) => out ++ scanPassF m fuel r
      | none => c :: scanPassF m fuel rest := rfl

theorem scanPassF_id {m : List Char → Option (List Char × List Char)} :
    ∀ cs : List Char, (∀ c r, c ∈ cs → m (c :: r) = none) → ∀ fuel,
      scanPassF m fuel cs = cs := by
  intro cs
  induction cs with
  | nil => intro _ fuel; exact scanPassF_nil m fuel
  | cons c t ih =>
    intro h fuel
    cases fuel with
    | zero => rfl
    | succ f =>
      rw [scanPassF_cons, h c t (by simp)]
      exact congrArg (c :: ·) (ih (fun d r hd => h d r (by simp [hd])) f)

theorem scanPass_id {m : List Char → Option (List Char × List Char)} (cs : List Char)
    (h : ∀ c r, c ∈ cs → m (c :: r) = none) : scanPass m cs = cs :=
  scanPassF_id cs h _

theorem scanPassF_skip {m : List Char → Option (List Char × List Char)} :
    ∀ xs rest : List Char, (∀ c r, c ∈ xs → m (c :: r) = none) → ∀ fuel,
      xs.length ≤ fuel →
      scanPassF m fuel (xs ++ rest) = xs ++ scanPassF m (fuel - xs.length) rest := by
  intro xs
  induction xs with
  | nil => intro rest _ fuel _; simp
  | cons c t ih =>
    intro rest h fuel hf
    cases fuel with
    | zero => simp at hf
    | succ f =>
      rw [List.cons_append, scanPassF_cons, h c (t ++ rest) (by simp),
        ih rest (fun d r hd => h d r (by simp [hd])) f (by simpa using hf)]
      simp [Nat.succ_sub_succ]

theorem scanPass_clean {m : List Char → Option (List Char × List Char)}
    (xs marker repl tail : List Char)
    (hxs : ∀ c r, c ∈ xs → m (c :: r) = none)
    (hm : m (marker ++ tail) = some (repl, tail))
    (hmark : marker ≠ [])
    (htail : ∀ c r, c ∈ tail → m (c :: r) = none) :
    scanPass m (xs ++ marker ++ tail) = xs ++ repl ++ tail := by
  obtain ⟨mc, mt, rfl⟩ : ∃ mc mt, marker = mc :: mt := by
    cases marker with
    | nil => exact absurd rfl hmark
    | cons a b => exact ⟨a, b, rfl⟩
  unfold scanPass
  rw [List.append_assoc,
    scanPassF_skip xs ((mc :: mt) ++ tail) hxs _ (by simp)]
  have hfuel : (xs ++ ((mc :: mt) ++ tail)).length - xs.length = (mt.length + tail.length) + 1 := by
    simp [List.length_append]
  rw [hfuel, List.cons_append, scanPassF_cons]
  rw [show mc :: (mt ++ tail) = (mc :: mt) ++ tail from rfl, hm]
  simp [scanPassF_id tail htail]

/-! ## Infrastructure lemmas: head-failure of the matchers -/

theorem matchLitOptYen_none {l₀ : Char} {lit' repl : List Char} {c : Char} {rest : List Char}
    (h : c ≠ l₀) : matchLitOptYen (l₀ :: lit') repl (c :: rest) = none := by
  have hne : l₀ ≠ c := Ne.symm h
  simp [matchLitOptYen, List.isPrefixOf, hne]

theorem matchNumGroup_none {c : Char} {rest : List Char} (h : isDigitCh c = false) :
    matchNumGroup (c :: rest) = none := by
  simp [matchNumGroup, h]

theorem matchTrillionBillion_none {c : Char} {rest : List Char} (h : isDigitCh c = false) :
    matchTrillionBillion (c :: rest) = none := by
  simp [matchTrillionBillion, matchNumGroup_none h]

theorem matchNumUnit_none (u : Char) {c : Char} {rest : List Char} (h : isDigitCh c = false) :
    matchNumUnit u (c :: rest) = none := by
  simp [matchNumUnit, matchNumGroup_none h]

theorem matchNAUnit_none {c : Char} {rest : List Char} (h1 : c ≠ 'N') (h2 : c ≠ 'n') :
    matchNAUnit (c :: rest) = none := by
  simp [matchNAUnit, matchNASlash, h1, h2]

/-! ## Infrastructure lemmas: `parseFloat` on rendered numerals -/

theorem parseFloatBody_digits {ds : List Char} (h : ds ≠ []) (hd : ∀ c ∈ ds, isDigitCh c = true)
    (sgn : ℚ) : parseFloatBody ds sgn = some (sgn * natOfDigits ds) := by
  obtain ⟨hts, hds⟩ := takeWhile_all (p := isDigitCh) hd
  unfold parseFloatBody
  rw [hts, hds]
  simp only [headIs, Bool.false_and, if_neg (by simp : ¬(false = true))]
  have hne : ds.isEmpty = false := by
    cases ds with
    | nil => exact absurd rfl h
    | cons a b => rfl
  simp [hne]

theorem parseFloatQ_digits {ds : List Char} (h : ds ≠ []) (hd : ∀ c ∈ ds, isDigitCh c = true) :
    parseFloatQ ds = some ((natOfDigits ds : ℚ)) := by
  obtain ⟨d, ds', rfl⟩ : ∃ d ds', ds = d :: ds' := by
    cases ds with
    | nil => exact absurd rfl h
    | cons a b => exact ⟨a, b, rfl⟩
  have hdd : isDigitCh d = true := hd d (by simp)
  have hws : jsWhitespace d = false := isDigitCh_not_ws hdd
  have hdrop : (d :: ds').dropWhile jsWhitespace = d :: ds' := by
    simp [List.dropWhile_cons, hws]
  have hminus : d ≠ '-' := isDigitCh_ne hdd (by rfl)
  have hplus : d ≠ '+' := isDigitCh_ne hdd (by rfl)
  unfold parseFloatQ
  rw [hdrop]
  have h1 : headIs '-' (d :: ds') = false := by simp [headIs, hminus]
  have h2 : headIs '+' (d :: ds') = false := by simp [headIs, hplus]
  simp only [h1, h2, Bool.false_eq_true, if_false]
  rw [parseFloatBody_digits h hd]
  simp

theorem renderFixedNat_ne_nil (m f : Nat) : renderFixedNat m f ≠ [] := by
  unfold renderFixedNat
  split
  · exact natDigits_ne_nil m
  · simp

theorem renderFixedNat_chars (m f : Nat) :
    ∀ c ∈ renderFixedNat m f, isDigitCh c = true ∨ c = '.' := by
  intro c hc
  unfold renderFixedNat at hc
  split at hc
  · exact Or.inl (natDigits_all_digit m c hc)
  · rcases List.mem_append.mp hc with h1 | h2
    · exact Or.inl (natDigits_all_digit _ c h1)
    · rcases List.mem_cons.mp h2 with h3 | h4
      · exact Or.inr h3
      · exact Or.inl (padLeft_all_digit (natDigits_all_digit _) c h4)

theorem parseFloatBody_decimal {A P : List Char} (hAne : A ≠ [])
    (hA : ∀ c ∈ A, isDigitCh c = true) (hP : ∀ c ∈ P, isDigitCh c = true) (sgn : ℚ) :
    parseFloatBody (A ++ '.' :: P) sgn =
      some (sgn * ((natOfDigits (A ++ P) : ℚ) / 10 ^ P.length)) := by
  obtain ⟨ht, hdr⟩ :=
    takeWhile_append_stop (p := isDigitCh) hA (show isDigitCh '.' = false from rfl)
  obtain ⟨htP, hdP⟩ := takeWhile_all (p := isDigitCh) hP
  have hAe : A.isEmpty = false := by
    cases A with
    | nil => exact absurd rfl hAne
    | cons a b => rfl
  unfold parseFloatBody
  rw [ht, hdr]
  simp [headIs, htP, hdP, hAe, natOfDigits_append]

theorem parseFloatBody_renderFixedNat (m f : Nat) (sgn : ℚ) :
    parseFloatBody (renderFixedNat m f) sgn = some (sgn * ((m : ℚ) / 10 ^ f)) := by
  rw [renderFixedNat]
  split
  · next hf =>
    rw [parseFloatBody_digits (natDigits_ne_nil m) (natDigits_all_digit m)]
    simp [natOfDigits_natDigits, hf]
  · next hf =>
    obtain ⟨k, rfl⟩ : ∃ k, f = k + 1 := ⟨f - 1, by omega⟩
    have hPlen : (padLeftZeros (natDigits (m % 10 ^ (k + 1))) (k + 1)).length = k + 1 :=
      padLeft_length (natDigits_length_le k _ (Nat.mod_lt _ (by positivity)))
    have hval : natOfDigits
        (natDigits (m / 10 ^ (k + 1)) ++ padLeftZeros (natDigits (m % 10 ^ (k + 1))) (k + 1)) =
        m := by
      rw [natOfDigits_append, natOfDigits_padLeft, hPlen, natOfDigits_natDigits,
        natOfDigits_natDigits, Nat.mul_comm]
      exact Nat.div_add_mod m _
    rw [parseFloatBody_decimal (natDigits_ne_nil _) (natDigits_all_digit _)
      (padLeft_all_digit (natDigits_all_digit _)) sgn]
    rw [hval, hPlen]

theorem renderFixedNat_cons (m f : Nat) :
    ∃ d R, renderFixedNat m f = d :: R ∧ isDigitCh d = true := by
  rw [renderFixedNat]
  split
  · obtain ⟨d, t, hdt⟩ := List.exists_cons_of_ne_nil (natDigits_ne_nil m)
    exact ⟨d, t, hdt, natDigits_all_digit m d (by rw [hdt]; simp)⟩
  · obtain ⟨d, t, hdt⟩ := List.exists_cons_of_ne_nil (natDigits_ne_nil (m / 10 ^ f))
    refine ⟨d, t ++ '.' :: padLeftZeros (natDigits (m % 10 ^ f)) f, ?_, ?_⟩
    · rw [hdt, List.cons_append]
    · exact natDigits_all_digit _ d (by rw [hdt]; simp)

theorem parseFloatQ_digitHead {d : Char} {R : List Char} (hd : isDigitCh d = true) :
    parseFloatQ (d :: R) = parseFloatBody (d :: R) 1 := by
  have hws : jsWhitespace d = false := isDigitCh_not_ws hd
  have hminus : d ≠ '-' := isDigitCh_ne hd (by rfl)
  have hplus : d ≠ '+' := isDigitCh_ne hd (by rfl)
  unfold parseFloatQ
  rw [show (d :: R).dropWhile jsWhitespace = d :: R by simp [List.dropWhile_cons, hws]]
  have h1 : headIs '-' (d :: R) = false := by simp [headIs, hminus]
  have h2 : headIs '+' (d :: R) = false := by simp [headIs, hplus]
  simp only [h1, h2, Bool.false_eq_true, if_false]

theorem parseFloatQ_toFixedQ (q : ℚ) (f : Nat) :
    parseFloatQ (toFixedQ q f) = some ((toFixedInt q f : ℚ) / 10 ^ f) := by
  rw [show toFixedQ q f =
      (if toFixedInt q f < 0 then '-' :: renderFixedNat (toFixedInt q f).natAbs f
       else renderFixedNat (toFixedInt q f).toNat f) from rfl]
  split
  · next hneg =>
    unfold parseFloatQ
    have hws : jsWhitespace '-' = false := rfl
    rw [show ('-' :: renderFixedNat (toFixedInt q f).natAbs f).dropWhile jsWhitespace =
      '-' :: renderFixedNat (toFixedInt q f).natAbs f by simp [List.dropWhile_cons, hws]]
    have hh : headIs '-' ('-' :: renderFixedNat (toFixedInt q f).natAbs f) = true := by
      simp [headIs]
    simp only [hh, if_true, List.tail_cons]
    rw [parseFloatBody_renderFixedNat]
    congr 1
    rw [Int.cast_natAbs, Int.cast_abs,
      abs_of_neg (show ((toFixedInt q f : ℚ)) < 0 by exact_mod_cast hneg)]
    ring
  · next hpos =>
    obtain ⟨d, R, hdr, hd⟩ := renderFixedNat_cons (toFixedInt q f).toNat f
    rw [hdr, parseFloatQ_digitHead hd, ← hdr, parseFloatBody_renderFixedNat]
    congr 1
    have hnn : (0 : ℤ) ≤ toFixedInt q f := by omega
    rw [show ((toFixedInt q f).toNat : ℚ) = ((toFixedInt q f : ℤ) : ℚ) from by
      exact_mod_cast congrArg (fun z : ℤ => (z : ℚ)) (Int.toNat_of_nonneg hnn)]
    ring

/-! ## Infrastructure lemmas: `parseJapaneseNumber` on formatted values -/

theorem splitChar_no_sep {sep : Char} : ∀ ys : List Char, sep ∉ ys → splitChar sep ys = [ys] := by
  intro ys
  induction ys with
  | nil => intro _; rfl
  | cons c t ih =>
    intro h
    have hc : ¬c = sep := by
      intro hcs
      exact h (by simp [hcs])
    rw [splitChar, if_neg hc, ih (fun hm => h (by simp [hm]))]

theorem splitChar_mid {sep : Char} :
    ∀ xs ys : List Char, sep ∉ xs → sep ∉ ys →
      splitChar sep (xs ++ sep :: ys) = [xs, ys] := by
  intro xs
  induction xs with
  | nil =>
    intro ys _ hy
    rw [List.nil_append, splitChar, if_pos rfl, splitChar_no_sep ys hy]
  | cons c t ih =>
    intro ys hx hy
    have hc : ¬c = sep := by
      intro hcs
      exact hx (by simp [hcs])
    rw [List.cons_append, splitChar, if_neg hc, ih ys (fun hm => hx (by simp [hm])) hy]

theorem toFixedQ_eq (q : ℚ) (f : Nat) :
    toFixedQ q f =
      if toFixedInt q f < 0 then '-' :: renderFixedNat (toFixedInt q f).natAbs f
      else renderFixedNat (toFixedInt q f).toNat f := rfl

theorem toFixedQ_chars (q : ℚ) (f : Nat) : ∀ c ∈ toFixedQ q f, fixedClass c := by
  intro c hc
  rw [toFixedQ_eq] at hc
  split at hc
  · rcases List.mem_cons.mp hc with h1 | h1
    · exact Or.inr (Or.inr h1)
    · rcases renderFixedNat_chars _ _ c h1 with h2 | h2
      · exact Or.inl h2
      · exact Or.inr (Or.inl h2)
  · rcases renderFixedNat_chars _ _ c hc with h2 | h2
    · exact Or.inl h2
    · exact Or.inr (Or.inl h2)

theorem toFixedQ_ne_nil (q : ℚ) (f : Nat) : toFixedQ q f ≠ [] := by
  rw [toFixedQ_eq]
  split
  · simp
  · exact renderFixedNat_ne_nil _ _

theorem fixedClass_ne {c : Char} (hc : fixedClass c) (d : Char) (hd : isDigitCh d = false)
    (h1 : ('.' : Char) ≠ d) (h2 : ('-' : Char) ≠ d) : c ≠ d := by
  rcases hc with h | h | h
  · exact isDigitCh_ne h hd
  · rw [h]; exact h1
  · rw [h]; exact h2

theorem fixedClass_not_ws {c : Char} (hc : fixedClass c) : jsWhitespace c = false := by
  rcases hc with h | h | h
  · exact isDigitCh_not_ws h
  · rw [h]; rfl
  · rw [h]; rfl

theorem dropWhile_of_all_neg {p : Char → Bool} :
    ∀ l : List Char, (∀ c ∈ l, p c = false) → l.dropWhile p = l := by
  intro l h
  cases l with
  | nil => rfl
  | cons c t => simp [List.dropWhile_cons, h c (by simp)]

theorem jsTrim_id {cs : List Char} (h : ∀ c ∈ cs, jsWhitespace c = false) : jsTrim cs = cs := by
  unfold jsTrim
  rw [dropWhile_of_all_neg cs h,
    dropWhile_of_all_neg cs.reverse (fun c hc => h c (List.mem_reverse.mp hc)),
    List.reverse_reverse]

theorem expClass_ne {c : Char} (hc : expClass c) (d : Char) (hd : isDigitCh d = false)
    (h1 : ('.' : Char) ≠ d) (h2 : ('-' : Char) ≠ d) (h3 : ('e' : Char) ≠ d) : c ≠ d := by
  rcases hc with h | h | h
  · exact fixedClass_ne h d hd h1 h2
  · rw [h]; exact h3
  · exact isDigitCh_ne h hd

theorem stripChars_id {E : List Char}
    (h1 : ∀ c ∈ E, c ≠ '円') (h2 : ∀ c ∈ E, c ≠ '倍') (h3 : ∀ c ∈ E, c ≠ '%')
    (h4 : ∀ c ∈ E, c ≠ ',') : stripChars E = E := by
  have e1 : E.filter (fun c => !(c = '円')) = E :=
    List.filter_eq_self.mpr (fun c hc => by simp [h1 c hc])
  have e2 : E.filter (fun c => !(c = '倍')) = E :=
    List.filter_eq_self.mpr (fun c hc => by simp [h2 c hc])
  have e3 : E.filter (fun c => !(c = '%')) = E :=
    List.filter_eq_self.mpr (fun c hc => by simp [h3 c hc])
  have e4 : E.filter (fun c => !(c = ',')) = E :=
    List.filter_eq_self.mpr (fun c hc => by simp [h4 c hc])
  rw [stripChars, e1, e2, e3, e4]

theorem stripChars_id_expClass {E : List Char} (hE : ∀ c ∈ E, expClass c) :
    stripChars E = E :=
  stripChars_id
    (fun c hc => expClass_ne (hE c hc) '円' rfl (by decide) (by decide) (by decide))
    (fun c hc => expClass_ne (hE c hc) '倍' rfl (by decide) (by decide) (by decide))
    (fun c hc => expClass_ne (hE c hc) '%' rfl (by decide) (by decide) (by decide))
    (fun c hc => expClass_ne (hE c hc) ',' rfl (by decide) (by decide) (by decide))

theorem parseJapaneseNumber_eq_core {L : List Char} (hws : ∀ c ∈ L, jsWhitespace c = false)
    (h1 : L ≠ ['-']) (h2 : L ≠ []) (h3 : L ≠ ['N', '/', 'A']) :
    parseJapaneseNumber (String.mk L) = pjnNumeric (pjnUnits L) := by
  have htrim : jsTrim L = L := jsTrim_id hws
  have hdata : (String.mk L).data = L := rfl
  simp only [parseJapaneseNumber, hdata, htrim]
  have he : L.isEmpty = false := by
    cases L with
    | nil => exact absurd rfl h2
    | cons a b => rfl
  simp [h1, h3, he]

/-- Identity of an `expClass` string under the four unit scans and the
four strips. -/
theorem pjnUnits_expClass {E : List Char} (hE : ∀ c ∈ E, expClass c) : pjnUnits E = E := by
  have hs1 : scanPass (matchLitOptYen ['兆'] ['e', '1', '2']) E = E :=
    scanPass_id E (fun c r hc =>
      matchLitOptYen_none (expClass_ne (hE c hc) '兆' rfl (by decide) (by decide) (by decide)))
  have hs2 : scanPass (matchLitOptYen ['億'] ['e', '8']) E = E :=
    scanPass_id E (fun c r hc =>
      matchLitOptYen_none (expClass_ne (hE c hc) '億' rfl (by decide) (by decide) (by decide)))
  have hs3 : scanPass (matchLitOptYen ['百', '万'] ['e', '6']) E = E :=
    scanPass_id E (fun c r hc =>
      matchLitOptYen_none (expClass_ne (hE c hc) '百' rfl (by decide) (by decide) (by decide)))
  have hs4 : scanPass (matchLitOptYen ['千'] ['e', '3']) E = E :=
    scanPass_id E (fun c r hc =>
      matchLitOptYen_none (expClass_ne (hE c hc) '千' rfl (by decide) (by decide) (by decide)))
  have hstrip : stripChars E = E := stripChars_id_expClass hE
  rw [pjnUnits, hs1, hs2, hs3, hs4, hstrip]

/-- The unit chain on `tf ++ [兆, 円]` for a `toFixed`-class prefix:
the marker becomes `e12` and nothing else changes. -/
theorem pjnUnits_tril {tf : List Char} (hc : ∀ c ∈ tf, fixedClass c) :
    pjnUnits (tf ++ ['兆', '円']) = tf ++ ['e', '1', '2'] := by
  have hxs : ∀ c r, c ∈ tf → matchLitOptYen ['兆'] ['e', '1', '2'] (c :: r) = none :=
    fun c r hcm =>
      matchLitOptYen_none (fixedClass_ne (hc c hcm) '兆' rfl (by decide) (by decide))
  have h1 : scanPass (matchLitOptYen ['兆'] ['e', '1', '2']) (tf ++ ['兆', '円']) =
      tf ++ ['e', '1', '2'] := by
    have := scanPass_clean (m := matchLitOptYen ['兆'] ['e', '1', '2']) tf ['兆', '円']
      ['e', '1', '2'] [] hxs (by rfl) (by simp) (by intro c r hcm; simp at hcm)
    simpa using this
  have hexp : ∀ c ∈ tf ++ ['e', '1', '2'], expClass c := by
    intro c hcm
    rcases List.mem_append.mp hcm with h | h
    · exact Or.inl (hc c h)
    · rcases List.mem_cons.mp h with h4 | h4
      · exact Or.inr (Or.inl h4)
      · refine Or.inr (Or.inr ?_)
        rcases List.mem_cons.mp h4 with h5 | h5
        · rw [h5]; rfl
        · rcases List.mem_cons.mp h5 with h6 | h6
          · rw [h6]; rfl
          · simp at h6
  have hs2 : scanPass (matchLitOptYen ['億'] ['e', '8']) (tf ++ ['e', '1', '2']) =
      tf ++ ['e', '1', '2'] :=
    scanPass_id _ (fun c r hcm =>
      matchLitOptYen_none (expClass_ne (hexp c hcm) '億' rfl (by decide) (by decide) (by decide)))
  have hs3 : scanPass (matchLitOptYen ['百', '万'] ['e', '6']) (tf ++ ['e', '1', '2']) =
      tf ++ ['e', '1', '2'] :=
    scanPass_id _ (fun c r hcm =>
      matchLitOptYen_none (expClass_ne (hexp c hcm) '百' rfl (by decide) (by decide) (by decide)))
  have hs4 : scanPass (matchLitOptYen ['千'] ['e', '3']) (tf ++ ['e', '1', '2']) =
      tf ++ ['e', '1', '2'] :=
    scanPass_id _ (fun c r hcm =>
      matchLitOptYen_none (expClass_ne (hexp c hcm) '千' rfl (by decide) (by decide) (by decide)))
  have hstrip : stripChars (tf ++ ['e', '1', '2']) = tf ++ ['e', '1', '2'] :=
    stripChars_id_expClass hexp
  rw [pjnUnits, h1, hs2, hs3, hs4, hstrip]

/-- Same for `tf ++ [億, 円]` producing `e8`. -/
theorem pjnUnits_bil {tf : List Char} (hc : ∀ c ∈ tf, fixedClass c) :
    pjnUnits (tf ++ ['億', '円']) = tf ++ ['e', '8'] := by
  have hs1 : scanPass (matchLitOptYen ['兆'] ['e', '1', '2']) (tf ++ ['億', '円']) =
      tf ++ ['億', '円'] := by
    refine scanPass_id _ ?_
    intro c r hcm
    rcases List.mem_append.mp hcm with h | h
    · exact matchLitOptYen_none (fixedClass_ne (hc c h) '兆' rfl (by decide) (by decide))
    · rcases List.mem_cons.mp h with h4 | h4
      · rw [h4]; exact matchLitOptYen_none (by decide)
      · rcases List.mem_cons.mp h4 with h5 | h5
        · rw [h5]; exact matchLitOptYen_none (by decide)
        · simp at h5
  have hxs : ∀ c r, c ∈ tf → matchLitOptYen ['億'] ['e', '8'] (c :: r) = none :=
    fun c r hcm =>
      matchLitOptYen_none (fixedClass_ne (hc c hcm) '億' rfl (by decide) (by decide))
  have h2 : scanPass (matchLitOptYen ['億'] ['e', '8']) (tf ++ ['億', '円']) =
      tf ++ ['e', '8'] := by
    have := scanPass_clean (m := matchLitOptYen ['億'] ['e', '8']) tf ['億', '円']
      ['e', '8'] [] hxs (by rfl) (by simp) (by intro c r hcm; simp at hcm)
    simpa using this
  have hexp : ∀ c ∈ tf ++ ['e', '8'], expClass c := by
    intro c hcm
    rcases List.mem_append.mp hcm with h | h
    · exact Or.inl (hc c h)
    · rcases List.mem_cons.mp h with h4 | h4
      · exact Or.inr (Or.inl h4)
      · refine Or.inr (Or.inr ?_)
        rcases List.mem_cons.mp h4 with h5 | h5
        · rw [h5]; rfl
        · simp at h5
  have hs3 : scanPass (matchLitOptYen ['百', '万'] ['e', '6']) (tf ++ ['e', '8']) =
      tf ++ ['e', '8'] :=
    scanPass_id _ (fun c r hcm =>
      matchLitOptYen_none (expClass_ne (hexp c hcm) '百' rfl (by decide) (by decide) (by decide)))
  have hs4 : scanPass (matchLitOptYen ['千'] ['e', '3']) (tf ++ ['e', '8']) =
      tf ++ ['e', '8'] :=
    scanPass_id _ (fun c r hcm =>
      matchLitOptYen_none (expClass_ne (hexp c hcm) '千' rfl (by decide) (by decide) (by decide)))
  have hstrip : stripChars (tf ++ ['e', '8']) = tf ++ ['e', '8'] :=
    stripChars_id_expClass hexp
  rw [pjnUnits, hs1, h2, hs3, hs4, hstrip]

/-- `pjnNumeric` on `tf ++ (e-marker)`: the split succeeds and the value
is rescaled by the decoded power of ten. -/
theorem pjnNumeric_marker {tf : List Char} (hc : ∀ c ∈ tf, fixedClass c)
    {eds : List Char} (heds : ∀ c ∈ eds, isDigitCh c = true) (hne : eds ≠ [])
    {b : ℚ} (hb : parseFloatQ tf = some b) :
    pjnNumeric (tf ++ 'e' :: eds) = some (b * 10 ^ (natOfDigits eds : ℤ)) := by
  have hetf : 'e' ∉ tf := by
    intro hmem
    rcases hc 'e' hmem with h | h | h
    · cases h
    · cases h
    · cases h
  have heds' : 'e' ∉ eds := by
    intro hmem
    have := heds 'e' hmem
    cases this
  have hcont : (tf ++ 'e' :: eds).contains 'e' = true :=
    List.elem_eq_true_of_mem (by simp)
  have hint : parseIntQ eds = some (natOfDigits eds : ℤ) := by
    obtain ⟨d, t, rfl⟩ := List.exists_cons_of_ne_nil hne
    have hd : isDigitCh d = true := heds d (by simp)
    have hws : jsWhitespace d = false := isDigitCh_not_ws hd
    unfold parseIntQ
    rw [show (d :: t).dropWhile jsWhitespace = d :: t by simp [List.dropWhile_cons, hws]]
    have h1 : headIs '-' (d :: t) = false := by
      simp [headIs, isDigitCh_ne hd (show isDigitCh '-' = false from rfl)]
    have h2 : headIs '+' (d :: t) = false := by
      simp [headIs, isDigitCh_ne hd (show isDigitCh '+' = false from rfl)]
    simp only [h1, h2, Bool.false_eq_true, if_false, Bool.or_self]
    obtain ⟨ht, _⟩ := takeWhile_all (p := isDigitCh) heds
    rw [ht]
    have : (d :: t).isEmpty = false := rfl
    simp [this]
  rw [pjnNumeric, if_pos hcont, splitChar_mid tf eds hetf heds']
  simp [hb, hint]

theorem scanPassLit_id (l₀ : Char) (lit' repl : List Char) {E : List Char}
    (hE : ∀ c ∈ E, c ≠ l₀) : scanPass (matchLitOptYen (l₀ :: lit') repl) E = E :=
  scanPass_id E (fun c r hc => matchLitOptYen_none (hE c hc))

theorem expClass_append_marker {tf : List Char} (hc : ∀ c ∈ tf, fixedClass c)
    {suffix : List Char} (hs : ∀ c ∈ suffix, c = 'e' ∨ isDigitCh c = true) :
    ∀ c ∈ tf ++ suffix, expClass c := by
  intro c hcm
  rcases List.mem_append.mp hcm with h | h
  · exact Or.inl (hc c h)
  · rcases hs c h with h1 | h1
    · exact Or.inr (Or.inl h1)
    · exact Or.inr (Or.inr h1)

/-- `百万円?  → e6` on a `toFixed`-class prefix. -/
theorem pjnUnits_mil {tf : List Char} (hc : ∀ c ∈ tf, fixedClass c) :
    pjnUnits (tf ++ ['百', '万', '円']) = tf ++ ['e', '6'] := by
  have hAll : ∀ c ∈ tf ++ ['百', '万', '円'], c ≠ '兆' ∧ c ≠ '億' := by
    intro c hcm
    rcases List.mem_append.mp hcm with h | h
    · exact ⟨fixedClass_ne (hc c h) '兆' rfl (by decide) (by decide),
        fixedClass_ne (hc c h) '億' rfl (by decide) (by decide)⟩
    · fin_cases h <;> exact ⟨by decide, by decide⟩
  have hs1 := scanPassLit_id '兆' [] ['e', '1', '2'] (fun c hcm => (hAll c hcm).1)
  have hs2 := scanPassLit_id '億' [] ['e', '8'] (fun c hcm => (hAll c hcm).2)
  have hxs : ∀ c r, c ∈ tf → matchLitOptYen ['百', '万'] ['e', '6'] (c :: r) = none :=
    fun c r hcm =>
      matchLitOptYen_none (fixedClass_ne (hc c hcm) '百' rfl (by decide) (by decide))
  have h3 : scanPass (matchLitOptYen ['百', '万'] ['e', '6']) (tf ++ ['百', '万', '円']) =
      tf ++ ['e', '6'] := by
    have := scanPass_clean (m := matchLitOptYen ['百', '万'] ['e', '6']) tf ['百', '万', '円']
      ['e', '6'] [] hxs (by rfl) (by simp) (by intro c r hcm; simp at hcm)
    simpa using this
  have hexp : ∀ c ∈ tf ++ ['e', '6'], expClass c :=
    expClass_append_marker hc (by intro c h; fin_cases h <;> decide)
  have hs4 := scanPassLit_id '千' [] ['e', '3'] (fun c hcm =>
    expClass_ne (hexp c hcm) '千' rfl (by decide) (by decide) (by decide))
  rw [pjnUnits, hs1, hs2, h3, hs4, stripChars_id_expClass hexp]

/-- `千円? → e3` on a `toFixed`-class prefix. -/
theorem pjnUnits_thou {tf : List Char} (hc : ∀ c ∈ tf, fixedClass c) :
    pjnUnits (tf ++ ['千', '円']) = tf ++ ['e', '3'] := by
  have hAll : ∀ c ∈ tf ++ ['千', '円'], c ≠ '兆' ∧ c ≠ '億' ∧ c ≠ '百' := by
    intro c hcm
    rcases List.mem_append.mp hcm with h | h
    · exact ⟨fixedClass_ne (hc c h) '兆' rfl (by decide) (by decide),
        fixedClass_ne (hc c h) '億' rfl (by decide) (by decide),
        fixedClass_ne (hc c h) '百' rfl (by decide) (by decide)⟩
    · fin_cases h <;> exact ⟨by decide, by decide, by decide⟩
  have hs1 := scanPassLit_id '兆' [] ['e', '1', '2'] (fun c hcm => (hAll c hcm).1)
  have hs2 := scanPassLit_id '億' [] ['e', '8'] (fun c hcm => (hAll c hcm).2.1)
  have hs3 := scanPassLit_id '百' ['万'] ['e', '6'] (fun c hcm => (hAll c hcm).2.2)
  have hxs : ∀ c r, c ∈ tf → matchLitOptYen ['千'] ['e', '3'] (c :: r) = none :=
    fun c r hcm =>
      matchLitOptYen_none (fixedClass_ne (hc c hcm) '千' rfl (by decide) (by decide))
  have h4 : scanPass (matchLitOptYen ['千'] ['e', '3']) (tf ++ ['千', '円']) =
      tf ++ ['e', '3'] := by
    have := scanPass_clean (m := matchLitOptYen ['千'] ['e', '3']) tf ['千', '円']
      ['e', '3'] [] hxs (by rfl) (by simp) (by intro c r hcm; simp at hcm)
    simpa using this
  have hexp : ∀ c ∈ tf ++ ['e', '3'], expClass c :=
    expClass_append_marker hc (by intro c h; fin_cases h <;> decide)
  rw [pjnUnits, hs1, hs2, hs3, h4, stripChars_id_expClass hexp]

/-- Bare `円` is stripped by the character filter. -/
theorem pjnUnits_yen {tf : List Char} (hc : ∀ c ∈ tf, fixedClass c) :
    pjnUnits (tf ++ ['円']) = tf := by
  have hne : ∀ c ∈ tf ++ ['円'], c ≠ '兆' ∧ c ≠ '億' ∧ c ≠ '百' ∧ c ≠ '千' := by
    intro c hcm
    rcases List.mem_append.mp hcm with h | h
    · exact ⟨fixedClass_ne (hc c h) '兆' rfl (by decide) (by decide),
        fixedClass_ne (hc c h) '億' rfl (by decide) (by decide),
        fixedClass_ne (hc c h) '百' rfl (by decide) (by decide),
        fixedClass_ne (hc c h) '千' rfl (by decide) (by decide)⟩
    · fin_cases h <;> exact ⟨by decide, by decide, by decide, by decide⟩
  have hs1 := scanPassLit_id '兆' [] ['e', '1', '2'] (fun c hcm => (hne c hcm).1)
  have hs2 := scanPassLit_id '億' [] ['e', '8'] (fun c hcm => (hne c hcm).2.1)
  have hs3 := scanPassLit_id '百' ['万'] ['e', '6'] (fun c hcm => (hne c hcm).2.2.1)
  have hs4 := scanPassLit_id '千' [] ['e', '3'] (fun c hcm => (hne c hcm).2.2.2)
  have hstrip : stripChars (tf ++ ['円']) = tf := by
    have e1 : (tf ++ ['円']).filter (fun c => !(c = '円')) = tf := by
      rw [List.filter_append, List.filter_eq_self.mpr (fun c hcm => by
        simp [fixedClass_ne (hc c hcm) '円' rfl (by decide) (by decide)])]
      simp
    have f2 : tf.filter (fun c => !(c = '倍')) = tf :=
      List.filter_eq_self.mpr (fun c hcm => by
        simp [fixedClass_ne (hc c hcm) '倍' rfl (by decide) (by decide)])
    have f3 : tf.filter (fun c => !(c = '%')) = tf :=
      List.filter_eq_self.mpr (fun c hcm => by
        simp [fixedClass_ne (hc c hcm) '%' rfl (by decide) (by decide)])
    have f4 : tf.filter (fun c => !(c = ',')) = tf :=
      List.filter_eq_self.mpr (fun c hcm => by
        simp [fixedClass_ne (hc c hcm) ',' rfl (by decide) (by decide)])
    rw [stripChars, e1, f2, f3, f4]
  rw [pjnUnits, hs1, hs2, hs3, hs4, hstrip]

/-- Bare `倍` is stripped by the character filter. -/
theorem pjnUnits_times {tf : List Char} (hc : ∀ c ∈ tf, fixedClass c) :
    pjnUnits (tf ++ ['倍']) = tf := by
  have hne : ∀ c ∈ tf ++ ['倍'], c ≠ '兆' ∧ c ≠ '億' ∧ c ≠ '百' ∧ c ≠ '千' := by
    intro c hcm
    rcases List.mem_append.mp hcm with h | h
    · exact ⟨fixedClass_ne (hc c h) '兆' rfl (by decide) (by decide),
        fixedClass_ne (hc c h) '億' rfl (by decide) (by decide),
        fixedClass_ne (hc c h) '百' rfl (by decide) (by decide),
        fixedClass_ne (hc c h) '千' rfl (by decide) (by decide)⟩
    · fin_cases h <;> exact ⟨by decide, by decide, by decide, by decide⟩
  have hs1 := scanPassLit_id '兆' [] ['e', '1', '2'] (fun c hcm => (hne c hcm).1)
  have hs2 := scanPassLit_id '億' [] ['e', '8'] (fun c hcm => (hne c hcm).2.1)
  have hs3 := scanPassLit_id '百' ['万'] ['e', '6'] (fun c hcm => (hne c hcm).2.2.1)
  have hs4 := scanPassLit_id '千' [] ['e', '3'] (fun c hcm => (hne c hcm).2.2.2)
  have hstrip : stripChars (tf ++ ['倍']) = tf := by
    have e1 : (tf ++ ['倍']).filter (fun c => !(c = '円')) = tf ++ ['倍'] :=
      List.filter_eq_self.mpr (by
        intro c hcm
        rcases List.mem_append.mp hcm with h | h
        · simp [fixedClass_ne (hc c h) '円' rfl (by decide) (by decide)]
        · fin_cases h <;> decide)
    have e2 : (tf ++ ['倍']).filter (fun c => !(c = '倍')) = tf := by
      rw [List.filter_append, List.filter_eq_self.mpr (fun c hcm => by
        simp [fixedClass_ne (hc c hcm) '倍' rfl (by decide) (by decide)])]
      simp
    have f3 : tf.filter (fun c => !(c = '%')) = tf :=
      List.filter_eq_self.mpr (fun c hcm => by
        simp [fixedClass_ne (hc c hcm) '%' rfl (by decide) (by decide)])
    have f4 : tf.filter (fun c => !(c = ',')) = tf :=
      List.filter_eq_self.mpr (fun c hcm => by
        simp [fixedClass_ne (hc c hcm) ',' rfl (by decide) (by decide)])
    rw [stripChars, e1, e2, f3, f4]
  rw [pjnUnits, hs1, hs2, hs3, hs4, hstrip]

/-- Bare `%` is stripped by the character filter. -/
theorem pjnUnits_pct {tf : List Char} (hc : ∀ c ∈ tf, fixedClass c) :
    pjnUnits (tf ++ ['%']) = tf := by
  have hne : ∀ c ∈ tf ++ ['%'], c ≠ '兆' ∧ c ≠ '億' ∧ c ≠ '百' ∧ c ≠ '千' := by
    intro c hcm
    rcases List.mem_append.mp hcm with h | h
    · exact ⟨fixedClass_ne (hc c h) '兆' rfl (by decide) (by decide),
        fixedClass_ne (hc c h) '億' rfl (by decide) (by decide),
        fixedClass_ne (hc c h) '百' rfl (by decide) (by decide),
        fixedClass_ne (hc c h) '千' rfl (by decide) (by decide)⟩
    · fin_cases h <;> exact ⟨by decide, by decide, by decide, by decide⟩
  have hs1 := scanPassLit_id '兆' [] ['e', '1', '2'] (fun c hcm => (hne c hcm).1)
  have hs2 := scanPassLit_id '億' [] ['e', '8'] (fun c hcm => (hne c hcm).2.1)
  have hs3 := scanPassLit_id '百' ['万'] ['e', '6'] (fun c hcm => (hne c hcm).2.2.1)
  have hs4 := scanPassLit_id '千' [] ['e', '3'] (fun c hcm => (hne c hcm).2.2.2)
  have hstrip : stripChars (tf ++ ['%']) = tf := by
    have e1 : (tf ++ ['%']).filter (fun c => !(c = '円')) = tf ++ ['%'] :=
      List.filter_eq_self.mpr (by
        intro c hcm
        rcases List.mem_append.mp hcm with h | h
        · simp [fixedClass_ne (hc c h) '円' rfl (by decide) (by decide)]
        · fin_cases h <;> decide)
    have e2 : (tf ++ ['%']).filter (fun c => !(c = '倍')) = tf ++ ['%'] :=
      List.filter_eq_self.mpr (by
        intro c hcm
        rcases List.mem_append.mp hcm with h | h
        · simp [fixedClass_ne (hc c h) '倍' rfl (by decide) (by decide)]
        · fin_cases h <;> decide)
    have e3 : (tf ++ ['%']).filter (fun c => !(c = '%')) = tf := by
      rw [List.filter_append, List.filter_eq_self.mpr (fun c hcm => by
        simp [fixedClass_ne (hc c hcm) '%' rfl (by decide) (by decide)])]
      simp
    have f4 : tf.filter (fun c => !(c = ',')) = tf :=
      List.filter_eq_self.mpr (fun c hcm => by
        simp [fixedClass_ne (hc c hcm) ',' rfl (by decide) (by decide)])
    rw [stripChars, e1, e2, e3, f4]
  rw [pjnUnits, hs1, hs2, hs3, hs4, hstrip]

/-- `pjnNumeric` on an `e`-free `toFixed`-class string is a plain
`parseFloat`. -/
theorem pjnNumeric_noexp {tf : List Char} (hc : ∀ c ∈ tf, fixedClass c) :
    pjnNumeric tf = parseFloatQ tf := by
  have hmem : 'e' ∉ tf := by
    intro hmem
    rcases hc 'e' hmem with h | h | h
    · cases h
    · cases h
    · cases h
  have hcont : tf.contains 'e' = false :=
    Bool.eq_false_iff.mpr (fun h => hmem (List.mem_of_elem_eq_true h))
  rw [pjnNumeric, hcont]
  simp

/-- Passage through the sentinel checks for a fixed-class prefix followed
by a unit suffix. -/
theorem parse_append_suffix {tf suffix : List Char} (hc : ∀ c ∈ tf, fixedClass c)
    (htf : tf ≠ []) (hsws : ∀ c ∈ suffix, jsWhitespace c = false) (hs0 : suffix ≠ [])
    (hsA : suffix.getLast? ≠ some 'A') :
    parseJapaneseNumber (String.mk (tf ++ suffix)) = pjnNumeric (pjnUnits (tf ++ suffix)) := by
  apply parseJapaneseNumber_eq_core
  · intro c hcm
    rcases List.mem_append.mp hcm with h | h
    · exact fixedClass_not_ws (hc c h)
    · exact hsws c h
  · intro h
    have := congrArg List.length h
    simp only [List.length_append, List.length_singleton] at this
    have h1 : 0 < tf.length := List.length_pos.mpr htf
    have h2 : 0 < suffix.length := List.length_pos.mpr hs0
    omega
  · intro h
    exact htf (List.append_eq_nil.mp h).1
  · intro h
    have := congrArg List.getLast? h
    rw [List.getLast?_append_of_ne_nil tf hs0] at this
    exact hsA (by rw [this]; rfl)

theorem format_unit_tril (q : ℚ) :
    formatJapaneseNumber (.num q) (some "兆円") =
      String.mk (toFixedQ (q / 10 ^ 12) 2 ++ ['兆', '円']) := rfl

theorem format_unit_bil (q : ℚ) :
    formatJapaneseNumber (.num q) (some "億円") =
      String.mk (toFixedQ (q / 10 ^ 8) 0 ++ ['億', '円']) := rfl

theorem format_unit_times (q : ℚ) :
    formatJapaneseNumber (.num q) (some "倍") = String.mk (toFixedQ q 2 ++ ['倍']) := rfl

theorem format_unit_pct (q : ℚ) :
    formatJapaneseNumber (.num q) (some "%") = String.mk (toFixedQ q 2 ++ ['%']) := rfl

theorem parse_format_tril (q : ℚ) :
    parseJapaneseNumber (formatJapaneseNumber (.num q) (some "兆円")) =
      some ((toFixedInt (q / 10 ^ 12) 2 : ℚ) / 10 ^ 2 * 10 ^ (12 : ℤ)) := by
  rw [format_unit_tril q,
    parse_append_suffix (toFixedQ_chars _ _) (toFixedQ_ne_nil _ _)
      (by intro c h; fin_cases h <;> rfl) (by simp) (by simp),
    pjnUnits_tril (toFixedQ_chars _ _)]
  have := pjnNumeric_marker (toFixedQ_chars (q / 10 ^ 12) 2)
    (show ∀ c ∈ (['1', '2'] : List Char), isDigitCh c = true from by
      intro c h; fin_cases h <;> rfl) (by simp)
    (parseFloatQ_toFixedQ (q / 10 ^ 12) 2)
  rw [show (['e', '1', '2'] : List Char) = 'e' :: ['1', '2'] from rfl, this]
  norm_num [show natOfDigits ['1', '2'] = 12 from rfl]

theorem parse_format_bil (q : ℚ) :
    parseJapaneseNumber (formatJapaneseNumber (.num q) (some "億円")) =
      some ((toFixedInt (q / 10 ^ 8) 0 : ℚ) / 10 ^ 0 * 10 ^ (8 : ℤ)) := by
  rw [format_unit_bil q,
    parse_append_suffix (toFixedQ_chars _ _) (toFixedQ_ne_nil _ _)
      (by intro c h; fin_cases h <;> rfl) (by simp) (by simp),
    pjnUnits_bil (toFixedQ_chars _ _)]
  have := pjnNumeric_marker (toFixedQ_chars (q / 10 ^ 8) 0)
    (show ∀ c ∈ (['8'] : List Char), isDigitCh c = true from by
      intro c h; fin_cases h <;> rfl) (by simp)
    (parseFloatQ_toFixedQ (q / 10 ^ 8) 0)
  rw [show (['e', '8'] : List Char) = 'e' :: ['8'] from rfl, this]
  norm_num [show natOfDigits ['8'] = 8 from rfl]

theorem parse_format_times (q : ℚ) :
    parseJapaneseNumber (formatJapaneseNumber (.num q) (some "倍")) =
      some ((toFixedInt q 2 : ℚ) / 10 ^ 2) := by
  rw [format_unit_times q,
    parse_append_suffix (toFixedQ_chars _ _) (toFixedQ_ne_nil _ _)
      (by intro c h; fin_cases h <;> rfl) (by simp) (by simp),
    pjnUnits_times (toFixedQ_chars _ _), pjnNumeric_noexp (toFixedQ_chars _ _),
    parseFloatQ_toFixedQ]

theorem parse_format_pct (q : ℚ) :
    parseJapaneseNumber (formatJapaneseNumber (.num q) (some "%")) =
      some ((toFixedInt q 2 : ℚ) / 10 ^ 2) := by
  rw [format_unit_pct q,
    parse_append_suffix (toFixedQ_chars _ _) (toFixedQ_ne_nil _ _)
      (by intro c h; fin_cases h <;> rfl) (by simp) (by simp),
    pjnUnits_pct (toFixedQ_chars _ _), pjnNumeric_noexp (toFixedQ_chars _ _),
    parseFloatQ_toFixedQ]

/-- `toFixed` picks the integer within half a unit in the last place. -/
theorem toFixedInt_bound (q : ℚ) (f : Nat) : |(toFixedInt q f : ℚ) - q * 10 ^ f| ≤ 1 / 2 := by
  unfold toFixedInt
  have h1 := Int.floor_le (q * 10 ^ f + 1 / 2)
  have h2 := Int.lt_floor_add_one (q * 10 ^ f + 1 / 2)
  rw [abs_le]
  constructor <;> linarith

/-- A value representable at 2 decimals is reproduced exactly. -/
theorem toFixedInt_exact {q : ℚ} (h : (q * 100).den = 1) :
    (toFixedInt q 2 : ℚ) = q * 100 := by
  obtain ⟨z, hz⟩ : ∃ z : ℤ, (z : ℚ) = q * 100 :=
    ⟨(q * 100).num, by rw [← Rat.num_div_den (q * 100), h]; simp⟩
  have hfl : toFixedInt q 2 = z := by
    unfold toFixedInt
    rw [show q * 10 ^ 2 = (z : ℚ) by rw [hz]; norm_num, Int.floor_eq_iff]
    constructor
    · linarith
    · push_cast
      linarith
  rw [hfl, hz]

/-! ## Infrastructure lemmas: locale renderings carry no unit suffix -/

theorem mem_dropWhile {p : Char → Bool} : ∀ l : List Char, ∀ c ∈ l.dropWhile p, c ∈ l := by
  intro l
  induction l with
  | nil => intro c hc; exact hc
  | cons a t ih =>
    intro c hc
    rw [List.dropWhile_cons] at hc
    split at hc
    · exact List.mem_cons_of_mem a (ih c hc)
    · exact hc

theorem groupRev_chars : ∀ l : List Char, ∀ c ∈ groupRev l, c ∈ l ∨ c = ',' := by
  intro l
  induction l using groupRev.induct with
  | case1 a b c' d rest ih =>
    intro c hc
    rw [groupRev] at hc
    rcases List.mem_cons.mp hc with h | h
    · exact Or.inl (by simp [h])
    · rcases List.mem_cons.mp h with h | h
      · exact Or.inl (by simp [h])
      · rcases List.mem_cons.mp h with h | h
        · exact Or.inl (by simp [h])
        · rcases List.mem_cons.mp h with h | h
          · exact Or.inr h
          · rcases ih c h with h2 | h2
            · exact Or.inl (by simp at h2 ⊢; tauto)
            · exact Or.inr h2
  | case2 l hl =>
    intro c hc
    rw [groupRev] at hc
    · exact Or.inl hc
    · exact hl

theorem groupThousands_chars (ds : List Char) :
    ∀ c ∈ groupThousands ds, c ∈ ds ∨ c = ',' := by
  intro c hc
  unfold groupThousands at hc
  rw [List.mem_reverse] at hc
  rcases groupRev_chars ds.reverse c hc with h | h
  · exact Or.inl (List.mem_reverse.mp h)
  · exact Or.inr h

theorem locFrac_chars (m : Nat) : ∀ c ∈ locFrac m, isDigitCh c = true := by
  intro c hc
  unfold locFrac dropTrailingZeros at hc
  rw [List.mem_reverse] at hc
  have := mem_dropWhile _ c hc
  rw [List.mem_reverse] at this
  exact padLeft_all_digit (natDigits_all_digit _) c this

theorem locBody_chars (m : Nat) : ∀ c ∈ locBody m, localeClass c := by
  intro c hc
  unfold locBody at hc
  rcases List.mem_append.mp hc with h | h
  · rcases groupThousands_chars _ c h with h2 | h2
    · exact Or.inl (natDigits_all_digit _ c h2)
    · exact Or.inr (Or.inl h2)
  · split at h
    · simp at h
    · rcases List.mem_cons.mp h with h2 | h2
      · exact Or.inr (Or.inr (Or.inl h2))
      · exact Or.inl (locFrac_chars m c h2)

theorem toLocaleStringQ_chars (q : ℚ) : ∀ c ∈ (toLocaleStringQ q).data, localeClass c := by
  intro c hc
  unfold toLocaleStringQ at hc
  split at hc
  · rcases List.mem_cons.mp hc with h | h
    · exact Or.inr (Or.inr (Or.inr h))
    · exact locBody_chars _ c h
  · exact locBody_chars _ c hc

theorem containsSub_eq_false {p₀ : Char} {pt : List Char} :
    ∀ {cs : List Char}, p₀ ∉ cs → containsSub (p₀ :: pt) cs = false := by
  intro cs
  induction cs with
  | nil => intro _; rfl
  | cons c t ih =>
    intro h
    have hne : (p₀ == c) = false := by
      simp only [beq_eq_false_iff_ne, ne_eq]
      intro he
      exact h (by simp [he])
    rw [containsSub, List.isPrefixOf, hne]
    simp only [Bool.false_and, Bool.false_or]
    exact ih (fun hm => h (List.mem_cons_of_mem c hm))

theorem localeClass_not_kanji {c : Char} (hc : localeClass c) (d : Char)
    (hd : isDigitCh d = false) (h1 : (',' : Char) ≠ d) (h2 : ('.' : Char) ≠ d)
    (h3 : ('-' : Char) ≠ d) : c ≠ d := by
  rcases hc with h | h | h | h
  · exact isDigitCh_ne h hd
  · rw [h]; exact h1
  · rw [h]; exact h2
  · rw [h]; exact h3

/-! ## Concrete evaluation lemmas

Character-level computation reduces in the kernel, but every rational
operation passes through `Nat.gcd`, which does not; the numeric tails are
therefore handled by the structural lemmas and `norm_num`. -/

theorem pjn_example_mil : parseJapaneseNumber "8,500百万円" = some 8500000000 := by
  have h0 := parseJapaneseNumber_eq_core (L := ['8', ',', '5', '0', '0', '百', '万', '円'])
    (by decide) (by decide) (by decide) (by decide)
  rw [show ("8,500百万円" : String) = String.mk ['8', ',', '5', '0', '0', '百', '万', '円']
    from rfl, h0]
  rw [show pjnUnits ['8', ',', '5', '0', '0', '百', '万', '円'] =
    ['8', '5', '0', '0'] ++ 'e' :: ['6'] from rfl]
  rw [pjnNumeric_marker (by decide) (by decide) (by simp)
    (parseFloatQ_digits (by decide) (by decide))]
  norm_num [show natOfDigits ['8', '5', '0', '0'] = 8500 from rfl,
    show natOfDigits ['6'] = 6 from rfl]

theorem pjn_example_neg : parseJapaneseNumber "-2.5億円" = some (-250000000) := by
  have h0 := parseJapaneseNumber_eq_core (L := ['-', '2', '.', '5', '億', '円'])
    (by decide) (by decide) (by decide) (by decide)
  rw [show ("-2.5億円" : String) = String.mk ['-', '2', '.', '5', '億', '円'] from rfl, h0]
  rw [show pjnUnits ['-', '2', '.', '5', '億', '円'] = ['-', '2', '.', '5'] ++ 'e' :: ['8']
    from rfl]
  have hb : parseFloatQ ['-', '2', '.', '5'] = some (-(25 / 10 : ℚ)) := by
    show parseFloatQ ('-' :: (['2'] ++ '.' :: ['5'])) = _
    unfold parseFloatQ
    rw [show (('-' :: (['2'] ++ '.' :: ['5'])).dropWhile jsWhitespace) =
      '-' :: (['2'] ++ '.' :: ['5']) from rfl]
    simp only [show headIs '-' ('-' :: (['2'] ++ '.' :: ['5'])) = true from rfl, if_true,
      List.tail_cons]
    rw [parseFloatBody_decimal (by decide) (by decide) (by decide) (-1)]
    norm_num [show natOfDigits ['2', '5'] = 25 from rfl]
  rw [pjnNumeric_marker (by decide) (by decide) (by simp) hb]
  norm_num [show natOfDigits ['8'] = 8 from rfl]

theorem roundtrip_bil_example :
    parseJapaneseNumber (formatJapaneseNumber (.num (14 * 10 ^ 7)) (some "億円")) =
      some (10 ^ 8) := by
  rw [parse_format_bil (14 * 10 ^ 7)]
  have h1 : toFixedInt ((14 * 10 ^ 7 : ℚ) / 10 ^ 8) 0 = 1 := by
    unfold toFixedInt
    rw [Int.floor_eq_iff]
    constructor
    · norm_num
    · push_cast
      norm_num
  rw [h1]
  norm_num

theorem format_mil_example :
    formatJapaneseNumber (.num 5000000) (some "百万円") = "5,000,000" := by
  show toLocaleStringQ 5000000 = "5,000,000"
  have h1 : roundHalfAway ((5000000 : ℚ) * 1000) = 5000000000 := by
    unfold roundHalfAway
    rw [if_pos (by norm_num : (0 : ℚ) ≤ 5000000 * 1000), Int.floor_eq_iff]
    constructor
    · push_cast
      norm_num
    · push_cast
      norm_num
  unfold toLocaleStringQ
  rw [h1, if_neg (by norm_num : ¬(5000000000 : ℤ) < 0)]
  rfl

theorem format_yen_example : formatJapaneseNumber (.num 123) (some "円") = "123" := by
  show toLocaleStringQ 123 = "123"
  have h1 : roundHalfAway ((123 : ℚ) * 1000) = 123000 := by
    unfold roundHalfAway
    rw [if_pos (by norm_num : (0 : ℚ) ≤ 123 * 1000), Int.floor_eq_iff]
    constructor
    · push_cast
      norm_num
    · push_cast
      norm_num
  unfold toLocaleStringQ
  rw [h1, if_neg (by norm_num : ¬(123000 : ℤ) < 0)]
  rfl

/-! ## Claim C6 -/

/-- C6: `parseJapaneseNumber` applies unit scaling with the longer units
substituted before their suffixes — `兆(円)` as ×10^12, then `億(円)` as
×10^8, then `百万円` as ×10^6, then `千円` as ×10^3, then bare `円` as ×1,
with `倍` and `%` stripped as bare multipliers of 1 — strips
thousands-separator commas and parses the signed decimal remainder; in
particular `"8,500百万円"` parses to exactly 8 500 000 000 (the 百万 scale
is applied, not lost to the bare-円 rule), and a signed decimal such as
`"-2.5億円"` parses to −250 000 000. -/
theorem c6_unit_scaling :
    (∀ ds : List Char, ds ≠ [] → (∀ c ∈ ds, isDigitCh c = true) →
      parseJapaneseNumber (String.mk (ds ++ ['兆', '円'])) =
        some ((natOfDigits ds : ℚ) * 10 ^ 12) ∧
      parseJapaneseNumber (String.mk (ds ++ ['億', '円'])) =
        some ((natOfDigits ds : ℚ) * 10 ^ 8) ∧
      parseJapaneseNumber (String.mk (ds ++ ['百', '万', '円'])) =
        some ((natOfDigits ds : ℚ) * 10 ^ 6) ∧
      parseJapaneseNumber (String.mk (ds ++ ['千', '円'])) =
        some ((natOfDigits ds : ℚ) * 10 ^ 3) ∧
      parseJapaneseNumber (String.mk (ds ++ ['円'])) = some (natOfDigits ds : ℚ) ∧
      parseJapaneseNumber (String.mk (ds ++ ['倍'])) = some (natOfDigits ds : ℚ) ∧
      parseJapaneseNumber (String.mk (ds ++ ['%'])) = some (natOfDigits ds : ℚ)) ∧
    parseJapaneseNumber "8,500百万円" = some 8500000000 ∧
    parseJapaneseNumber "-2.5億円" = some (-250000000) := by
  refine ⟨?_, pjn_example_mil, pjn_example_neg⟩
  intro ds hne hd
  have hfc : ∀ c ∈ ds, fixedClass c := fun c hc => Or.inl (hd c hc)
  have hpf := parseFloatQ_digits hne hd
  refine ⟨?_, ?_, ?_, ?_, ?_, ?_, ?_⟩
  · rw [parse_append_suffix hfc hne (by intro c h; fin_cases h <;> rfl) (by simp) (by decide),
      pjnUnits_tril hfc, show (['e', '1', '2'] : List Char) = 'e' :: ['1', '2'] from rfl,
      pjnNumeric_marker hfc (by intro c h; fin_cases h <;> rfl) (by simp) hpf]
    norm_num [show natOfDigits ['1', '2'] = 12 from rfl]
  · rw [parse_append_suffix hfc hne (by intro c h; fin_cases h <;> rfl) (by simp) (by decide),
      pjnUnits_bil hfc, show (['e', '8'] : List Char) = 'e' :: ['8'] from rfl,
      pjnNumeric_marker hfc (by intro c h; fin_cases h <;> rfl) (by simp) hpf]
    norm_num [show natOfDigits ['8'] = 8 from rfl]
  · rw [parse_append_suffix hfc hne (by intro c h; fin_cases h <;> rfl) (by simp) (by decide),
      pjnUnits_mil hfc, show (['e', '6'] : List Char) = 'e' :: ['6'] from rfl,
      pjnNumeric_marker hfc (by intro c h; fin_cases h <;> rfl) (by simp) hpf]
    norm_num [show natOfDigits ['6'] = 6 from rfl]
  · rw [parse_append_suffix hfc hne (by intro c h; fin_cases h <;> rfl) (by simp) (by decide),
      pjnUnits_thou hfc, show (['e', '3'] : List Char) = 'e' :: ['3'] from rfl,
      pjnNumeric_marker hfc (by intro c h; fin_cases h <;> rfl) (by simp) hpf]
    norm_num [show natOfDigits ['3'] = 3 from rfl]
  · rw [parse_append_suffix hfc hne (by intro c h; fin_cases h <;> rfl) (by simp) (by decide),
      pjnUnits_yen hfc, pjnNumeric_noexp hfc, hpf]
  · rw [parse_append_suffix hfc hne (by intro c h; fin_cases h <;> rfl) (by simp) (by decide),
      pjnUnits_times hfc, pjnNumeric_noexp hfc, hpf]
  · rw [parse_append_suffix hfc hne (by intro c h; fin_cases h <;> rfl) (by simp) (by decide),
      pjnUnits_pct hfc, pjnNumeric_noexp hfc, hpf]

/-- Witness for C6 at the digit string `"5"` with the 兆円 unit. -/
theorem c6_unit_scaling_witness :
    (['5'] : List Char) ≠ [] ∧
    parseJapaneseNumber (String.mk (['5'] ++ ['兆', '円'])) = some ((natOfDigits ['5'] : ℚ) * 10 ^ 12) :=
  ⟨by decide, (c6_unit_scaling.1 ['5'] (by decide) (by decide)).1⟩

/-! ## Claim C7 -/

/-- C7 counterexample: for the unit hint `億円` the formatter renders at
0 decimals, so the round trip does NOT recover the value within a
2-decimal-place tolerance (0.005 of the 億円 scale, i.e. 5·10^5): at
n = 1.4·10^8 the round trip returns 10^8, an error of 4·10^7. -/
theorem c7_round_trip_counterexample :
    parseJapaneseNumber (formatJapaneseNumber (.num (14 * 10 ^ 7)) (some "億円")) =
      some (10 ^ 8) ∧
    ¬(|(10 ^ 8 : ℚ) - 14 * 10 ^ 7| ≤ 5 * 10 ^ 5) := by
  refine ⟨roundtrip_bil_example, ?_⟩
  rw [show (10 ^ 8 : ℚ) - 14 * 10 ^ 7 = -(4 * 10 ^ 7) by norm_num, abs_neg,
    abs_of_pos (by norm_num : (0 : ℚ) < 4 * 10 ^ 7)]
  norm_num

/-- C7 (amended): the round trip `parseJapaneseNumber ∘ formatJapaneseNumber`
recovers `n` within half a unit of the rendered precision — 0.005 兆円
(= 5·10^9) for the 兆円 hint (2 decimals), but only 0.5 億円 (= 5·10^7)
for the 億円 hint, whose formatter uses 0 decimals — and exactly for 倍
and % whenever `n` is representable with 2-decimal formatting. -/
theorem c7_round_trip (q : ℚ) :
    (∃ r, parseJapaneseNumber (formatJapaneseNumber (.num q) (some "兆円")) = some r ∧
      |r - q| ≤ 5 * 10 ^ 9) ∧
    (∃ r, parseJapaneseNumber (formatJapaneseNumber (.num q) (some "億円")) = some r ∧
      |r - q| ≤ 5 * 10 ^ 7) ∧
    ((q * 100).den = 1 →
      parseJapaneseNumber (formatJapaneseNumber (.num q) (some "倍")) = some q ∧
      parseJapaneseNumber (formatJapaneseNumber (.num q) (some "%")) = some q) := by
  refine ⟨⟨_, parse_format_tril q, ?_⟩, ⟨_, parse_format_bil q, ?_⟩, fun h => ⟨?_, ?_⟩⟩
  · have hb := toFixedInt_bound (q / 10 ^ 12) 2
    have hzp : ((10 : ℚ)) ^ (12 : ℤ) = 10 ^ (12 : ℕ) := by norm_num
    rw [hzp,
      show (toFixedInt (q / 10 ^ 12) 2 : ℚ) / 10 ^ 2 * 10 ^ (12 : ℕ) - q =
        ((toFixedInt (q / 10 ^ 12) 2 : ℚ) - q / 10 ^ 12 * 10 ^ 2) * 10 ^ 10 from by ring,
      abs_mul, abs_of_pos (by positivity : (0 : ℚ) < 10 ^ 10)]
    calc |(toFixedInt (q / 10 ^ 12) 2 : ℚ) - q / 10 ^ 12 * 10 ^ 2| * 10 ^ 10
        ≤ 1 / 2 * 10 ^ 10 := mul_le_mul_of_nonneg_right hb (by positivity)
      _ = 5 * 10 ^ 9 := by norm_num
  · have hb := toFixedInt_bound (q / 10 ^ 8) 0
    have hzp : ((10 : ℚ)) ^ (8 : ℤ) = 10 ^ (8 : ℕ) := by norm_num
    rw [hzp,
      show (toFixedInt (q / 10 ^ 8) 0 : ℚ) / 10 ^ 0 * 10 ^ (8 : ℕ) - q =
        ((toFixedInt (q / 10 ^ 8) 0 : ℚ) - q / 10 ^ 8 * 10 ^ 0) * 10 ^ 8 from by ring,
      abs_mul, abs_of_pos (by positivity : (0 : ℚ) < 10 ^ 8)]
    calc |(toFixedInt (q / 10 ^ 8) 0 : ℚ) - q / 10 ^ 8 * 10 ^ 0| * 10 ^ 8
        ≤ 1 / 2 * 10 ^ 8 := mul_le_mul_of_nonneg_right hb (by positivity)
      _ = 5 * 10 ^ 7 := by norm_num
  · rw [parse_format_times q, toFixedInt_exact h, show q * 100 / 10 ^ 2 = q from by ring]
  · rw [parse_format_pct q, toFixedInt_exact h, show q * 100 / 10 ^ 2 = q from by ring]

/-- Witness for C7 at `q = 5/4` (2-decimal representable). -/
theorem c7_round_trip_witness :
    ((5 / 4 : ℚ) * 100).den = 1 ∧
    parseJapaneseNumber (formatJapaneseNumber (.num (5 / 4)) (some "倍")) = some (5 / 4) :=
  ⟨by rw [show (5 / 4 * 100 : ℚ) = 125 from by norm_num]; simp,
    ((c7_round_trip (5 / 4)).2.2
      (by rw [show (5 / 4 * 100 : ℚ) = 125 from by norm_num]; simp)).1⟩

/-! ## Claim C8 -/

/-- C8 counterexample: a `百万円` unit hint does not divide by 10^6 and
does not append the `百万円` suffix — the value renders as a plain
locale-grouped string; likewise a `円` hint renders with no `円` suffix. -/
theorem c8_unit_hint_counterexample :
    formatJapaneseNumber (.num 5000000) (some "百万円") = "5,000,000" ∧
    formatJapaneseNumber (.num 5000000) (some "百万円") ≠ "5百万円" ∧
    formatJapaneseNumber (.num 123) (some "円") = "123" := by
  refine ⟨format_mil_example, ?_, format_yen_example⟩
  rw [format_mil_example]
  decide

/-- C8 (amended): a unit hint containing 兆, 億, 倍 or % forces that
unit's scale and suffix regardless of magnitude, but the hints 百万円 and
円 fall through to the plain locale-grouped rendering with no scaling and
no suffix (the rendered string never even contains the hinted unit);
`NaN`/`null` render as `"-"` under every hint. -/
theorem c8_unit_hints (q : ℚ) (u : Option String) :
    formatJapaneseNumber (.num q) (some "兆円") =
      String.mk (toFixedQ (q / 10 ^ 12) 2 ++ ['兆', '円']) ∧
    formatJapaneseNumber (.num q) (some "億円") =
      String.mk (toFixedQ (q / 10 ^ 8) 0 ++ ['億', '円']) ∧
    formatJapaneseNumber (.num q) (some "倍") = String.mk (toFixedQ q 2 ++ ['倍']) ∧
    formatJapaneseNumber (.num q) (some "%") = String.mk (toFixedQ q 2 ++ ['%']) ∧
    formatJapaneseNumber (.num q) (some "百万円") = toLocaleStringQ q ∧
    formatJapaneseNumber (.num q) (some "円") = toLocaleStringQ q ∧
    containsStr (formatJapaneseNumber (.num q) (some "百万円")) "百万円" = false ∧
    containsStr (formatJapaneseNumber (.num q) (some "円")) "円" = false ∧
    formatJapaneseNumber .null u = "-" ∧
    formatJapaneseNumber .nan u = "-" := by
  refine ⟨rfl, rfl, rfl, rfl, rfl, rfl, ?_, ?_, rfl, rfl⟩
  · show containsSub ['百', '万', '円'] (toLocaleStringQ q).data = false
    apply containsSub_eq_false
    intro hmem
    exact localeClass_not_kanji (toLocaleStringQ_chars q '百' hmem) '百' rfl
      (by decide) (by decide) (by decide) rfl
  · show containsSub ['円'] (toLocaleStringQ q).data = false
    apply containsSub_eq_false
    intro hmem
    exact localeClass_not_kanji (toLocaleStringQ_chars q '円' hmem) '円' rfl
      (by decide) (by decide) (by decide) rfl

/-! ## Claim C2 -/

theorem find?_map_fst {β : Type} (g : String → β) (k : String) :
    ∀ ks : List String, k ∈ ks →
      ((ks.map (fun x => (x, g x))).find? (fun p => p.1 == k)) = some (k, g k) := by
  intro ks
  induction ks with
  | nil => intro h; simp at h
  | cons k' t ih =>
    intro h
    by_cases hk : k' = k
    · subst hk
      simp [List.find?_cons]
    · have : k ∈ t := by
        rcases List.mem_cons.mp h with h1 | h1
        · exact absurd h1.symm hk
        · exact h1
      rw [List.map_cons, List.find?_cons, show ((k', g k').1 == k) = false from by
        simpa using hk]
      exact ih this

/-- C2 counterexample: a metric with exactly one non-null contributing
value yields that value, not `null`, and the mean is not rounded to 2
decimals (three values 1, 2, 2 average to 5/3, not 1.67). -/
theorem c2_average_counterexample :
    calculateAverages [⟨"1", "A", [("PER", .num 10)]⟩] = [("PER", some 10)] ∧
    calculateAverages [⟨"1", "A", [("PER", .num 1)]⟩, ⟨"2", "B", [("PER", .num 2)]⟩,
      ⟨"3", "C", [("PER", .num 2)]⟩] = [("PER", some (5 / 3))] ∧
    (5 / 3 : ℚ) ≠ 167 / 100 ∧ some (10 : ℚ) ≠ (none : Option ℚ) := by
  refine ⟨?_, ?_, by norm_num, by simp⟩
  · have hv : contributingValues [⟨"1", "A", [("PER", .num 10)]⟩] "PER" = [10] := rfl
    have hk : allMetricKeys [⟨"1", "A", [("PER", JVal.num 10)]⟩] = ["PER"] := rfl
    unfold calculateAverages
    rw [hk]
    simp [hv]
  · have hv : contributingValues [⟨"1", "A", [("PER", .num 1)]⟩, ⟨"2", "B", [("PER", .num 2)]⟩,
      ⟨"3", "C", [("PER", .num 2)]⟩] "PER" = [1, 2, 2] := rfl
    have hk : allMetricKeys [⟨"1", "A", [("PER", JVal.num 1)]⟩, ⟨"2", "B", [("PER", .num 2)]⟩,
      ⟨"3", "C", [("PER", .num 2)]⟩] = ["PER"] := rfl
    unfold calculateAverages
    rw [hk]
    simp only [List.isEmpty_cons, Bool.false_eq_true, if_false, List.map_cons, List.map_nil, hv]
    norm_num

/-- C2 (amended): for every non-empty company set and every collected
metric key, the aggregate entry is the exact arithmetic mean over the
non-null, non-`NaN` contributing values, and is `null` exactly when no
value contributes — a single contributing value is returned as the mean
(there is no two-value minimum and no rounding). -/
theorem c2_average_mean (companies : List CompanyMetrics) (k : String)
    (hne : companies ≠ []) (hk : k ∈ allMetricKeys companies) :
    (calculateAverages companies).find? (fun p => p.1 == k) =
      some (k, meanSpec companies k) := by
  unfold calculateAverages
  rw [if_neg (by simpa [List.isEmpty_iff] using hne)]
  have := find?_map_fst
    (fun x =>
      let values := contributingValues companies x
      if 0 < values.length then some (values.sum / (values.length : ℚ)) else none)
    k (allMetricKeys companies) hk
  rw [this]
  have hval :
      (if 0 < (contributingValues companies k).length then
        some ((contributingValues companies k).sum / ((contributingValues companies k).length : ℚ))
      else none) = meanSpec companies k := by
    unfold meanSpec
    rcases h : contributingValues companies k with _ | ⟨v, vs⟩ <;> simp
  rw [← hval]

/-- Witness for C2 on a single company carrying one metric value. -/
theorem c2_average_mean_witness :
    [(⟨"1", "A", [("PER", JVal.num 10)]⟩ : CompanyMetrics)] ≠ [] ∧
    (calculateAverages [⟨"1", "A", [("PER", JVal.num 10)]⟩]).find? (fun p => p.1 == "PER") =
      some ("PER", meanSpec [⟨"1", "A", [("PER", JVal.num 10)]⟩] "PER") :=
  ⟨by simp, c2_average_mean [⟨"1", "A", [("PER", JVal.num 10)]⟩] "PER" (by simp) (by decide)⟩

/-! ## Claim C5 -/

/-- C5: the validator accepts an oracle object exactly when its `headers`
field is an array of length at least 5 containing one of the financial
keywords as a substring of the concatenated header text and its `rows`
field is a non-empty array; on any oracle failure — a missing `rows` key,
fewer than 5 headers, or no parsed object at all — the heuristic parse of
the input text is returned instead. -/
theorem c5_validator (c : Candidate) (text : String) :
    (isValidParsed c = true ↔
      ∃ hs rs, c.headers = some hs ∧ c.rows = some rs ∧ 5 ≤ hs.length ∧
        (∃ k ∈ mustHaveKeywords, containsStr (String.intercalate "\n" hs) k = true) ∧
        rs ≠ []) ∧
    (isValidParsed c = false →
      postParse (some c) text = .fromHeuristic (heuristicParse text)) ∧
    postParse none text = .fromHeuristic (heuristicParse text) ∧
    isValidParsed ⟨some ["PER", "a", "b", "c", "d"], none⟩ = false ∧
    isValidParsed ⟨some ["PER", "時価", "ROE", "売上"], some [[]]⟩ = false := by
  refine ⟨?_, ?_, rfl, by decide, by decide⟩
  · obtain ⟨hso, rso⟩ := c
    cases hso with
    | none => simp [isValidParsed]
    | some hs =>
      cases rso with
      | none => simp [isValidParsed]
      | some rs =>
        simp only [isValidParsed, Bool.and_eq_true, decide_eq_true_eq,
          List.any_eq_true, Bool.not_eq_true']
        constructor
        · rintro ⟨⟨h5, k, hkmem, hkc⟩, hrs⟩
          refine ⟨hs, rs, rfl, rfl, h5, ⟨k, hkmem, hkc⟩, ?_⟩
          intro h
          rw [h] at hrs
          exact absurd hrs (by decide)
        · rintro ⟨hs', rs', h1, h2, h5, ⟨k, hkmem, hkc⟩, hrs⟩
          cases h1
          cases h2
          refine ⟨⟨h5, k, hkmem, hkc⟩, ?_⟩
          cases rs with
          | nil => exact absurd rfl hrs
          | cons a t => rfl
  · intro h
    simp [postParse, h]

/-- Witness for C5: a candidate with no `rows` key is rejected and the
heuristic output is returned. -/
theorem c5_validator_witness :
    isValidParsed ⟨some ["PER", "a", "b", "c", "d"], none⟩ = false ∧
    postParse (some ⟨some ["PER", "a", "b", "c", "d"], none⟩) "x" =
      .fromHeuristic (heuristicParse "x") :=
  ⟨by decide, (c5_validator ⟨some ["PER", "a", "b", "c", "d"], none⟩ "x").2.1 (by decide)⟩

/-! ## Row-key structure: `setVal`, `assignRange`, `assignCols` -/

theorem keys_setVal : ∀ (m : List (String × String)) (k v x : String),
    x ∈ (setVal m k v).map Prod.fst → x ∈ m.map Prod.fst ∨ x = k := by
  intro m
  induction m with
  | nil =>
    intro k v x h
    simp [setVal] at h
    exact Or.inr h
  | cons p t ih =>
    intro k v x h
    obtain ⟨k', v'⟩ := p
    by_cases hk : k' = k
    · rw [show setVal ((k', v') :: t) k v = (k, v) :: t from by simp [setVal, hk]] at h
      simp only [List.map_cons, List.mem_cons] at h
      rcases h with h | h
      · exact Or.inr h
      · exact Or.inl (by simp [h])
    · rw [show setVal ((k', v') :: t) k v = (k', v') :: setVal t k v from by
        simp [setVal, hk]] at h
      simp only [List.map_cons, List.mem_cons] at h
      rcases h with h | h
      · exact Or.inl (by simp [h])
      · rcases ih k v x h with h2 | h2
        · exact Or.inl (by simp [h2])
        · exact Or.inr h2

theorem setVal_append_fresh : ∀ (m : List (String × String)) (k v : String),
    k ∉ m.map Prod.fst → setVal m k v = m ++ [(k, v)] := by
  intro m
  induction m with
  | nil => intro k v _; rfl
  | cons p t ih =>
    intro k v h
    obtain ⟨k', v'⟩ := p
    simp only [List.map_cons, List.mem_cons, not_or] at h
    have hne : ¬ k' = k := fun e => h.1 e.symm
    rw [show setVal ((k', v') :: t) k v = (k', v') :: setVal t k v from by
      simp only [setVal]; rw [if_neg hne]]
    rw [ih k v h.2]
    simp

theorem keys_assignRange (headers values : List String) :
    ∀ (n : Nat) (m : List (String × String)) (x : String),
      x ∈ (assignRange headers values n m).map Prod.fst →
      x ∈ m.map Prod.fst ∨ ∃ k, k < n ∧ x = headers.getD k "" := by
  intro n
  induction n with
  | zero =>
    intro m x h
    unfold assignRange at h
    simp only [List.range_zero, List.foldl_nil] at h
    exact Or.inl h
  | succ n ih =>
    intro m x h
    unfold assignRange at h
    rw [List.range_succ, List.foldl_append, List.foldl_cons, List.foldl_nil] at h
    rcases keys_setVal _ _ _ _ h with h2 | h2
    · rcases ih m x (by unfold assignRange; exact h2) with h3 | ⟨k, hk, he⟩
      · exact Or.inl h3
      · exact Or.inr ⟨k, Nat.lt_succ_of_lt hk, he⟩
    · exact Or.inr ⟨n, Nat.lt_succ_self n, h2⟩

theorem keys_assignColsFold (values : List String) :
    ∀ (n : Nat) (m : List (String × String)) (x : String),
      x ∈ ((List.range n).foldl
        (fun acc i => setVal acc ("col_" ++ natToStr (i + 1)) (values.getD i "")) m).map
          Prod.fst →
      x ∈ m.map Prod.fst ∨ ∃ i, x = "col_" ++ natToStr (i + 1) := by
  intro n
  induction n with
  | zero =>
    intro m x h
    simp only [List.range_zero, List.foldl_nil] at h
    exact Or.inl h
  | succ n ih =>
    intro m x h
    rw [List.range_succ, List.foldl_append, List.foldl_cons, List.foldl_nil] at h
    rcases keys_setVal _ _ _ _ h with h2 | h2
    · rcases ih m x h2 with h3 | h3
      · exact Or.inl h3
      · exact Or.inr h3
    · exact Or.inr ⟨n, h2⟩

theorem keys_assignCols (values : List String) (x : String)
    (h : x ∈ (assignCols values).map Prod.fst) : ∃ i, x = "col_" ++ natToStr (i + 1) := by
  rcases keys_assignColsFold values values.length [] x (by unfold assignCols at h; exact h)
    with h2 | h2
  · simp at h2
  · exact h2

theorem mem_of_getLast?_eq : ∀ (l : List String) (a : String), l.getLast? = some a → a ∈ l := by
  intro l
  induction l with
  | nil => intro a h; simp at h
  | cons b t ih =>
    intro a h
    cases t with
    | nil =>
      simp only [List.getLast?_singleton, Option.some.injEq] at h
      simp [h]
    | cons c t' =>
      rw [List.getLast?_cons_cons] at h
      exact List.mem_cons_of_mem b (ih a h)

theorem getD_mem (l : List String) (k : Nat) (h : k < l.length) : l.getD k "" ∈ l := by
  rw [List.getD_eq_getElem l "" h]
  exact List.getElem_mem h

theorem numericCountOf_le (headers : List String) :
    numericCountOf headers ≤ headers.length := by
  unfold numericCountOf
  split <;> omega

theorem buildRow_keys_mem (headers tokens : List String) (hne : headers ≠ [])
    (x : String) (hx : x ∈ rowKeys (buildRow headers tokens)) : x ∈ headers := by
  have h0 : 0 < headers.length := List.length_pos.mpr hne
  simp only [rowKeys, buildRow] at hx
  rw [if_pos h0] at hx
  split at hx
  · try dsimp only at hx
    split at hx
    · next hlast =>
      rcases keys_setVal _ _ _ _ hx with h2 | h2
      · rcases keys_assignRange headers _ _ [] x h2 with h3 | ⟨k, hk, he⟩
        · simp at h3
        · rw [he]
          exact getD_mem headers k (lt_of_lt_of_le hk (numericCountOf_le headers))
      · rw [h2, List.getLastD_eq_getLast?, hlast]
        exact mem_of_getLast?_eq headers _ hlast
    · rcases keys_assignRange headers _ _ [] x hx with h3 | ⟨k, hk, he⟩
      · simp at h3
      · rw [he]
        exact getD_mem headers k (lt_of_lt_of_le hk (numericCountOf_le headers))
  · try dsimp only at hx
    rcases keys_assignRange headers _ _ [] x hx with h3 | ⟨k, hk, he⟩
    · simp at h3
    · rw [he]
      exact getD_mem headers k (lt_of_lt_of_le hk (le_trans (Nat.min_le_left _ _) le_rfl))

theorem buildRow_keys_cols (tokens : List String) (x : String)
    (hx : x ∈ rowKeys (buildRow [] tokens)) : ∃ i, x = "col_" ++ natToStr (i + 1) := by
  simp only [rowKeys, buildRow] at hx
  rw [if_neg (by decide)] at hx
  dsimp only at hx
  exact keys_assignCols _ x hx

theorem mem_heuristicParse_rows (text : String) (r : ParsedRow)
    (hr : r ∈ (heuristicParse text).rows) :
    ∃ toks : List String, r = buildRow (heuristicParse text).headers toks := by
  simp only [heuristicParse] at hr ⊢
  rcases List.mem_filterMap.mp hr with ⟨l, hl, hfl⟩
  try dsimp only at hfl
  by_cases hlen : (tokenizeRow l).length < 1
  · rw [if_pos hlen] at hfl
    cases hfl
  · rw [if_neg hlen] at hfl
    refine ⟨tokenizeRow l, ?_⟩
    injection hfl with h
    exact h.symm

/-! ## The offset scan of `buildRow` (claim C1) -/

theorem find?_range'_first (p : Nat → Bool) :
    ∀ (len s j : Nat), (List.range' s len).find? p = some j →
      p j = true ∧ s ≤ j ∧ j < s + len ∧ ∀ i, s ≤ i → i < j → p i = false := by
  intro len
  induction len with
  | zero =>
    intro s j h
    rw [show List.range' s 0 = [] from rfl] at h
    simp at h
  | succ n ih =>
    intro s j h
    rw [List.range'_succ] at h
    by_cases hp : p s = true
    · rw [List.find?_cons_of_pos _ hp] at h
      injection h with h
      subst h
      exact ⟨hp, le_rfl, by omega, fun i h1 h2 => by omega⟩
    · rw [List.find?_cons_of_neg _ (by simpa using hp)] at h
      obtain ⟨hpj, hsj, hjlt, hmin⟩ := ih (s + 1) j h
      refine ⟨hpj, by omega, by omega, ?_⟩
      intro i h1 h2
      rcases Nat.eq_or_lt_of_le h1 with he | h3
      · rw [← he]
        exact Bool.eq_false_iff.mpr hp
      · exact hmin i h3 h2

theorem findJ_first (rest : List String) (nc j : Nat) (h : findJ rest nc = some j) :
    1 ≤ j ∧ j + nc ≤ rest.length ∧
      (∀ s ∈ (rest.drop j).take nc, isNumericLikeToken s = true) ∧
      ∀ i, 1 ≤ i → i < j → windowOK rest nc i = false := by
  unfold findJ at h
  obtain ⟨hpj, h1, h2, hmin⟩ := find?_range'_first (windowOK rest nc) rest.length 1 j h
  unfold windowOK at hpj
  simp only [Bool.and_eq_true, decide_eq_true_eq, List.all_eq_true] at hpj
  exact ⟨h1, hpj.1, hpj.2, hmin⟩

theorem nodup_take_of_nodup (l : List String) (n : Nat) (h : l.Nodup) : (l.take n).Nodup :=
  h.sublist (List.take_sublist n l)

theorem assignRange_eq_zip (headers values : List String) :
    ∀ n, n ≤ headers.length → n ≤ values.length → (headers.take n).Nodup →
      assignRange headers values n [] = (headers.take n).zip (values.take n) := by
  intro n
  induction n with
  | zero => intro _ _ _; rfl
  | succ n ih =>
    intro h1 h2 hnd
    have hlt1 : n < headers.length := h1
    have hlt2 : n < values.length := h2
    have htake : headers.take (n + 1) = headers.take n ++ [headers[n]] := by
      rw [List.take_succ]
      simp [List.getElem?_eq_getElem hlt1]
    have vtake : values.take (n + 1) = values.take n ++ [values[n]] := by
      rw [List.take_succ]
      simp [List.getElem?_eq_getElem hlt2]
    rw [htake] at hnd
    obtain ⟨hnd1, -, hdisj⟩ := List.nodup_append.mp hnd
    have hmem : headers[n] ∉ headers.take n := fun hm => hdisj hm (by simp)
    unfold assignRange
    rw [List.range_succ, List.foldl_append, List.foldl_cons, List.foldl_nil]
    have ihe : (List.range n).foldl
        (fun acc k => setVal acc (headers.getD k "") (values.getD k "")) [] =
        (headers.take n).zip (values.take n) := by
      have he := ih (le_of_lt hlt1) (le_of_lt hlt2) hnd1
      unfold assignRange at he
      exact he
    rw [ihe]
    have hkey : headers.getD n "" = headers[n] := List.getD_eq_getElem headers "" hlt1
    have hval : values.getD n "" = values[n] := List.getD_eq_getElem values "" hlt2
    have hkeys : ((headers.take n).zip (values.take n)).map Prod.fst = headers.take n := by
      apply List.map_fst_zip
      simp [List.length_take]
      omega
    rw [hkey, hval, setVal_append_fresh _ _ _ (by rw [hkeys]; exact hmem)]
    rw [htake, vtake, List.zip_append (by simp [List.length_take]; omega)]
    rfl

theorem buildRow_code_cons (headers : List String) (t : String) (rest : List String)
    (hc : isCodeTok t.data = true) (h0 : 0 < headers.length) (j : Nat)
    (hj : findJ rest (numericCountOf headers) = some j) :
    buildRow headers (t :: rest) =
      { code := some t, name := some (joinSp (rest.take j)),
        vals :=
          if headers.getLast? = some "特徴語" then
            setVal (assignRange headers ((rest.drop j).take (numericCountOf headers))
                (numericCountOf headers) []) (headers.getLastD "")
              (joinSp (rest.drop (j + numericCountOf headers)))
          else
            assignRange headers ((rest.drop j).take (numericCountOf headers))
              (numericCountOf headers) [] } := by
  simp [buildRow, hc, h0, hj]

theorem buildRow_nocode_cons (headers tokens : List String) (t : String)
    (ht : tokens.head? = some t)
    (hc : isCodeTok t.data = false) (h0 : 0 < headers.length) (j : Nat)
    (hj : findJ tokens (numericCountOf headers) = some j) :
    buildRow headers tokens =
      { code := none, name := some (joinSp (tokens.take j)),
        vals :=
          if headers.getLast? = some "特徴語" then
            setVal (assignRange headers ((tokens.drop j).take (numericCountOf headers))
                (numericCountOf headers) []) (headers.getLastD "")
              (joinSp (tokens.drop (j + numericCountOf headers)))
          else
            assignRange headers ((tokens.drop j).take (numericCountOf headers))
              (numericCountOf headers) [] } := by
  simp [buildRow, ht, hc, h0, hj]

theorem realignVals_eq (headers V : List String) (tail : String)
    (hnd : headers.Nodup) (hne : headers ≠ [])
    (hlen : V.length = numericCountOf headers) :
    (if headers.getLast? = some "特徴語" then
      setVal (assignRange headers V (numericCountOf headers) [])
        (headers.getLastD "") tail
    else assignRange headers V (numericCountOf headers) []) =
      (headers.take (numericCountOf headers)).zip V ++
        (if headers.getLast? = some "特徴語" then [("特徴語", tail)] else []) := by
  have hncle := numericCountOf_le headers
  have hVt : V.take (numericCountOf headers) = V := List.take_of_length_le (le_of_eq hlen)
  have hzip := assignRange_eq_zip headers V (numericCountOf headers) hncle
    (le_of_eq hlen.symm) (nodup_take_of_nodup headers _ hnd)
  rw [hVt] at hzip
  by_cases hlast : headers.getLast? = some "特徴語"
  · rw [if_pos hlast, if_pos hlast, hzip]
    have hnc_eq : numericCountOf headers = headers.length - 1 := by
      unfold numericCountOf
      rw [if_pos hlast]
    have hglast : headers.getLast hne = "特徴語" := by
      have := List.getLast?_eq_getLast headers hne
      rw [hlast] at this
      exact (Option.some.injEq _ _ ▸ this.symm)
    have hdl : headers.take (numericCountOf headers) = headers.dropLast := by
      rw [hnc_eq, ← List.dropLast_eq_take]
    have hsplit : headers.dropLast ++ [headers.getLast hne] = headers :=
      List.dropLast_append_getLast hne
    have hnd2 : (headers.dropLast ++ [headers.getLast hne]).Nodup := by
      rw [hsplit]
      exact hnd
    obtain ⟨-, -, hdisj⟩ := List.nodup_append.mp hnd2
    have hnotin : headers.getLast hne ∉ headers.dropLast := fun hm => hdisj hm (by simp)
    have hkeyD : headers.getLastD "" = "特徴語" := by
      rw [List.getLastD_eq_getLast?, hlast]
      rfl
    have hkeys : ((headers.take (numericCountOf headers)).zip V).map Prod.fst =
        headers.take (numericCountOf headers) := by
      apply List.map_fst_zip
      simp [List.length_take, hlen]
    rw [hkeyD, setVal_append_fresh _ _ _ (by
      rw [hkeys, hdl, ← hglast]
      exact hnotin)]
  · rw [if_neg hlast, if_neg hlast, hzip]
    simp

/-- C1: with a detected header line, a data row led by an (optional) 4–5
digit code token is scanned at offsets `i = 1, 2, …` over the remaining
tokens; the first offset whose next `numericCount` tokens are all
numeric-like wins, tokens before it are space-joined into the name, the
window is zipped onto the headers in order, and the space-joined tail goes
to a trailing `特徴語` header; the claim's concrete Toyota line parses
exactly as stated. -/
theorem c1_realignment :
    (∀ (headers rest : List String) (t : String) (j : Nat),
      isCodeTok t.data = true → headers.Nodup → headers ≠ [] →
      findJ rest (numericCountOf headers) = some j →
      (1 ≤ j ∧ j + numericCountOf headers ≤ rest.length ∧
        (∀ s ∈ (rest.drop j).take (numericCountOf headers), isNumericLikeToken s = true) ∧
        (∀ i, 1 ≤ i → i < j → windowOK rest (numericCountOf headers) i = false)) ∧
      buildRow headers (t :: rest) =
        { code := some t, name := some (joinSp (rest.take j)),
          vals := (headers.take (numericCountOf headers)).zip
              ((rest.drop j).take (numericCountOf headers)) ++
            (if headers.getLast? = some "特徴語" then
              [("特徴語", joinSp (rest.drop (j + numericCountOf headers)))] else []) }) ∧
    (∀ (headers tokens : List String) (t : String) (j : Nat),
      tokens.head? = some t → isCodeTok t.data = false → headers.Nodup → headers ≠ [] →
      findJ tokens (numericCountOf headers) = some j →
      buildRow headers tokens =
        { code := none, name := some (joinSp (tokens.take j)),
          vals := (headers.take (numericCountOf headers)).zip
              ((tokens.drop j).take (numericCountOf headers)) ++
            (if headers.getLast? = some "特徴語" then
              [("特徴語", joinSp (tokens.drop (j + numericCountOf headers)))] else []) }) ∧
    heuristicParse
        "企業価値 時価総額 PER (会) 売上 特徴語\n7203 トヨタ自動車 124,976億円 35兆円 8.5倍 45,095億円 好調" =
      ⟨["企業価値", "時価総額", "PER (会)", "売上", "特徴語"],
       [⟨some "7203", some "トヨタ自動車",
         [("企業価値", "124,976億円"), ("時価総額", "35兆円"), ("PER (会)", "8.5倍"),
          ("売上", "45,095億円"), ("特徴語", "好調")]⟩]⟩ := by
  refine ⟨?_, ?_, by decide⟩
  · intro headers rest t j hc hnd hne hj
    have h0 : 0 < headers.length := List.length_pos.mpr hne
    obtain ⟨hj1, hjlen, hjall, hjmin⟩ := findJ_first rest (numericCountOf headers) j hj
    refine ⟨⟨hj1, hjlen, hjall, hjmin⟩, ?_⟩
    rw [buildRow_code_cons headers t rest hc h0 j hj]
    have hvlen : ((rest.drop j).take (numericCountOf headers)).length =
        numericCountOf headers := by
      simp [List.length_take, List.length_drop]
      omega
    rw [realignVals_eq headers _ _ hnd hne hvlen]
  · intro headers tokens t j ht hc hnd hne hj
    have h0 : 0 < headers.length := List.length_pos.mpr hne
    obtain ⟨hj1, hjlen, hjall, hjmin⟩ := findJ_first tokens (numericCountOf headers) j hj
    rw [buildRow_nocode_cons headers tokens t ht hc h0 j hj]
    have hvlen : ((tokens.drop j).take (numericCountOf headers)).length =
        numericCountOf headers := by
      simp [List.length_take, List.length_drop]
      omega
    rw [realignVals_eq headers _ _ hnd hne hvlen]

/-- Witness for C1 on headers `["A", "B"]` and tokens
`["7203", "x", "12", "34"]`. -/
theorem c1_realignment_witness :
    findJ ["x", "12", "34"] (numericCountOf ["A", "B"]) = some 1 ∧
    buildRow ["A", "B"] ["7203", "x", "12", "34"] =
      { code := some "7203", name := some (joinSp (["x", "12", "34"].take 1)),
        vals := (["A", "B"].take (numericCountOf ["A", "B"])).zip
            (((["x", "12", "34"] : List String).drop 1).take (numericCountOf ["A", "B"])) ++
          (if (["A", "B"] : List String).getLast? = some "特徴語" then
            [("特徴語", joinSp (["x", "12", "34"].drop (1 + numericCountOf ["A", "B"])))]
          else []) } :=
  ⟨by decide, (c1_realignment.1 ["A", "B"] ["x", "12", "34"] "7203" 1 (by decide) (by decide)
    (by decide) (by decide)).2⟩

/-! ## Claim C10 -/

/-- C10: a data line that tokenizes to a single token matching the 4–5
digit code pattern produces a row whose `code` and `name` are both that
same token — the name falls back to the code string — and whose value map
is empty, whatever the headers are. -/
theorem c10_single_code_token (headers : List String) (t : String)
    (hc : isCodeTok t.data = true) :
    buildRow headers [t] = ⟨some t, some t, []⟩ := by
  by_cases h0 : 0 < headers.length <;>
    simp [buildRow, hc, jsFalsyName, findJ, assignRange, assignCols, h0, List.range']

/-- Witness for C10 on the code token `7203`. -/
theorem c10_single_code_token_witness :
    isCodeTok "7203".data = true ∧
    buildRow ["a", "b", "c", "d", "e"] ["7203"] = ⟨some "7203", some "7203", []⟩ :=
  ⟨by decide, c10_single_code_token ["a", "b", "c", "d", "e"] "7203" (by decide)⟩

/-! ## Claim C9 -/

/-- C9 counterexample: with no detected header line, the parser returns an
empty headers array while the row carries the synthesized key `col_1`, so
the row's non-reserved keys are not a subset of the returned headers. -/
theorem c9_keys_counterexample :
    (heuristicParse "9999 A B").headers = [] ∧
    (heuristicParse "9999 A B").rows = [⟨some "9999", some "A", [("col_1", "B")]⟩] ∧
    "col_1" ∈ rowKeys ⟨some "9999", some "A", [("col_1", "B")]⟩ ∧
    "col_1" ∉ (heuristicParse "9999 A B").headers := by
  refine ⟨by decide, by decide, by decide, by decide⟩

/-- C9 (amended): every non-reserved key of every returned row lies among
the returned headers whenever the headers array is non-empty (a header
line was detected); when it is empty, the keys are instead the synthesized
column names `col_i`. -/
theorem c9_row_keys (text : String) (r : ParsedRow)
    (hr : r ∈ (heuristicParse text).rows) :
    ((heuristicParse text).headers ≠ [] →
      ∀ x ∈ rowKeys r, x ∈ (heuristicParse text).headers) ∧
    ((heuristicParse text).headers = [] →
      ∀ x ∈ rowKeys r, ∃ i, x = "col_" ++ natToStr (i + 1)) := by
  obtain ⟨toks, rfl⟩ := mem_heuristicParse_rows text r hr
  constructor
  · intro hne x hx
    exact buildRow_keys_mem _ toks hne x hx
  · intro he x hx
    rw [he] at hx
    exact buildRow_keys_cols toks x hx

/-- Witness for C9 on the header-less input `"9999 A B"`. -/
theorem c9_row_keys_witness :
    ∃ i, "col_1" = "col_" ++ natToStr (i + 1) :=
  (c9_row_keys "9999 A B" ⟨some "9999", some "A", [("col_1", "B")]⟩ (by decide)).2
    (by decide) "col_1" (by decide)

/-! ## Claim C4 -/

/-- C4: for every annotated price point, a calendar year at or beyond the
latest known fiscal year uses the TTM net income and the latest known
annual revenue as PER/PSR denominators; an earlier calendar year `Y` uses
the annual figures recorded under fiscal year `Y+1` in the year-indexed
tables; and a missing or non-positive denominator (including a fiscal
year `Y+1` with no table entry) makes `per` (resp. `psr`) undefined —
never zero, never extrapolated. -/
theorem c4_fiscal_lookup (inp : FinancialSnapshot) (p : PricePoint) :
    (latestFiscalYear inp ≤ p.year →
      getNetIncomeForDate inp p.year = ttmNetIncome inp ∧
      getRevenueForDate inp p.year = inp.revenue) ∧
    (p.year < latestFiscalYear inp →
      getNetIncomeForDate inp p.year = yearMapGet (annualNetIncomeMap inp) (p.year + 1) ∧
      getRevenueForDate inp p.year = yearMapGet (annualRevenueMap inp) (p.year + 1)) ∧
    (getNetIncomeForDate inp p.year = none → perOf inp p = none) ∧
    (∀ d, getNetIncomeForDate inp p.year = some d → d ≤ 0 → perOf inp p = none) ∧
    (getRevenueForDate inp p.year = none → psrOf inp p = none) ∧
    (∀ d, getRevenueForDate inp p.year = some d → d ≤ 0 → psrOf inp p = none) := by
  refine ⟨?_, ?_, ?_, ?_, ?_, ?_⟩
  · intro h
    constructor <;> simp [getNetIncomeForDate, getRevenueForDate, h]
  · intro h
    constructor <;> simp [getNetIncomeForDate, getRevenueForDate, not_le.mpr h]
  · intro h
    cases hmc : marketCapOf inp p <;> simp [perOf, h, hmc]
  · intro d h hd
    cases hmc : marketCapOf inp p with
    | none => simp [perOf, h, hmc]
    | some mc =>
      simp only [perOf, h, hmc]
      rw [if_neg]
      rintro ⟨-, -, h3⟩
      linarith
  · intro h
    cases hmc : marketCapOf inp p <;> simp [psrOf, h, hmc]
  · intro d h hd
    cases hmc : marketCapOf inp p with
    | none => simp [psrOf, h, hmc]
    | some mc =>
      simp only [psrOf, h, hmc]
      rw [if_neg]
      rintro ⟨-, -, h3⟩
      linarith

/-- Witness for C4 on a concrete snapshot: the 2024 point of a company
whose latest fiscal year is 2024 reads the TTM figure, and the 2022 point
reads the 2023 table entries. -/
theorem c4_fiscal_lookup_witness :
    (latestFiscalYear ⟨[⟨some 2024, some 5, some 7⟩], [], some 9, some 2, 2025⟩ ≤
      (⟨2024, 3⟩ : PricePoint).year ∧
      getNetIncomeForDate ⟨[⟨some 2024, some 5, some 7⟩], [], some 9, some 2, 2025⟩ 2024 =
        ttmNetIncome ⟨[⟨some 2024, some 5, some 7⟩], [], some 9, some 2, 2025⟩) ∧
    ((⟨2022, 3⟩ : PricePoint).year <
      latestFiscalYear ⟨[⟨some 2024, some 5, some 7⟩], [], some 9, some 2, 2025⟩ ∧
      getNetIncomeForDate ⟨[⟨some 2024, some 5, some 7⟩], [], some 9, some 2, 2025⟩ 2022 =
        yearMapGet (annualNetIncomeMap ⟨[⟨some 2024, some 5, some 7⟩], [], some 9, some 2, 2025⟩)
          2023) :=
  ⟨⟨by decide,
    ((c4_fiscal_lookup ⟨[⟨some 2024, some 5, some 7⟩], [], some 9, some 2, 2025⟩
      ⟨2024, 3⟩).1 (by decide)).1⟩,
   ⟨by decide,
    ((c4_fiscal_lookup ⟨[⟨some 2024, some 5, some 7⟩], [], some 9, some 2, 2025⟩
      ⟨2022, 3⟩).2.1 (by decide)).1⟩⟩

/-! ## Claim C3 -/

theorem toFixedStr_ne_NA (q : ℚ) (f : Nat) : String.mk (toFixedQ q f) ≠ "N/A" := by
  intro h
  have hd : toFixedQ q f = ['N', '/', 'A'] := congrArg String.data h
  have hm : ('N' : Char) ∈ toFixedQ q f := by
    rw [hd]
    simp
  exact fixedClass_ne (toFixedQ_chars q f 'N' hm) 'N' (by decide) (by decide) (by decide) rfl

theorem specEVAt_sub (cs g : List Char) (h : specEVAt cs = some g) : matchEVAt cs = some g := by
  cases cs with
  | nil => simp [specEVAt] at h
  | cons c rest =>
    simp only [specEVAt] at h
    simp only [matchEVAt]
    by_cases hdc : isDigitComma c = true
    · rw [if_pos hdc] at h ⊢
      by_cases hpre : ['億', '円'].isPrefixOf
          (match rest.dropWhile isDigitComma with
            | '.' :: r => r.dropWhile isDigitCh
            | _ => rest.dropWhile isDigitComma) = true
      · obtain ⟨tail, htail⟩ := List.isPrefixOf_iff_prefix.mp hpre
        rw [if_pos hpre] at h
        rw [← htail,
          show (['億', '円'] ++ tail).dropWhile jsWhitespace = ['億', '円'] ++ tail from by
            rw [List.cons_append, List.dropWhile_cons_of_neg (by decide)],
          htail]
        rw [if_pos hpre]
        exact h
      · rw [if_neg hpre] at h
        cases h
    · rw [if_neg hdc] at h
      cases h

theorem parseEV_toyota : parseEV "124,976億円" = some (some ((124976 : ℚ))) := by
  unfold parseEV
  rw [show scanEV "124,976億円".data = some ['1', '2', '4', ',', '9', '7', '6'] from rfl]
  simp only [Option.map_some']
  rw [show ((['1', '2', '4', ',', '9', '7', '6'] : List Char).filter (fun c => !(c = ','))) =
    ['1', '2', '4', '9', '7', '6'] from rfl]
  rw [parseFloatQ_digits (by decide) (by decide)]
  norm_num [show natOfDigits ['1', '2', '4', '9', '7', '6'] = 124976 from rfl]

theorem parseSales_toyota : parseSales "4,509,500" = some (some ((45095 : ℚ))) := by
  unfold parseSales
  rw [show scanSales "4,509,500".data = some "4,509,500".data from rfl]
  simp only [Option.map_some']
  rw [show (("4,509,500".data).filter (fun c => !(c = ','))) =
    ['4', '5', '0', '9', '5', '0', '0'] from rfl]
  rw [parseFloatQ_digits (by decide) (by decide)]
  simp only [Option.map_some']
  norm_num [show natOfDigits ['4', '5', '0', '9', '5', '0', '0'] = 4509500 from rfl]

theorem toFixed_toyota : toFixedQ ((124976 : ℚ) / 45095) 2 = ['2', '.', '7', '7'] := by
  have hti : toFixedInt ((124976 : ℚ) / 45095) 2 = 277 := by
    unfold toFixedInt
    rw [Int.floor_eq_iff]
    constructor <;> norm_num
  rw [toFixedQ_eq, hti, if_neg (by decide)]
  rfl

/-- C3 counterexample: the source regex permits whitespace (`\s*`) between
the numeric group and `億円`, so the claim's "immediately followed"
extraction fails on `"124,976 億円"` while the code still computes and
returns a PSR string rather than "N/A". -/
theorem c3_psr_counterexample :
    specEVExtract "124,976 億円".data = none ∧
    calculatePSR "124,976 億円" "100" = "124976.00" ∧
    ("124976.00" : String) ≠ "N/A" := by
  refine ⟨rfl, ?_, by decide⟩
  have hev : parseEV "124,976 億円" = some (some ((124976 : ℚ))) := by
    unfold parseEV
    rw [show scanEV "124,976 億円".data = some ['1', '2', '4', ',', '9', '7', '6'] from rfl]
    simp only [Option.map_some']
    rw [show ((['1', '2', '4', ',', '9', '7', '6'] : List Char).filter (fun c => !(c = ','))) =
      ['1', '2', '4', '9', '7', '6'] from rfl]
    rw [parseFloatQ_digits (by decide) (by decide)]
    norm_num [show natOfDigits ['1', '2', '4', '9', '7', '6'] = 124976 from rfl]
  have hsal : parseSales "100" = some (some ((1 : ℚ))) := by
    unfold parseSales
    rw [show scanSales "100".data = some ['1', '0', '0'] from rfl]
    simp only [Option.map_some']
    rw [show ((['1', '0', '0'] : List Char).filter (fun c => !(c = ','))) =
      ['1', '0', '0'] from rfl]
    rw [parseFloatQ_digits (by decide) (by decide)]
    simp only [Option.map_some']
    norm_num [show natOfDigits ['1', '0', '0'] = 100 from rfl]
  have hdiv : jsDiv (some (124976 : ℚ)) (some (1 : ℚ)) = some ((124976 : ℚ)) := by
    show (if (1 : ℚ) = 0 then none else some ((124976 : ℚ) / 1)) = some ((124976 : ℚ))
    rw [if_neg (by norm_num)]
    norm_num
  have hfix : toFixedQ ((124976 : ℚ)) 2 = "124976.00".data := by
    have hti : toFixedInt ((124976 : ℚ)) 2 = 12497600 := by
      unfold toFixedInt
      rw [Int.floor_eq_iff]
      constructor <;> norm_num
    rw [toFixedQ_eq, hti, if_neg (by decide)]
    rfl
  unfold calculatePSR
  rw [if_neg (by decide)]
  simp only [hev, hsal]
  rw [if_neg (by simp)]
  rw [show toFixed2OrNaN (jsDiv (some ((124976 : ℚ))) (some ((1 : ℚ)))) =
    String.mk (toFixedQ ((124976 : ℚ)) 2) from by rw [hdiv]; rfl]
  rw [hfix]

/-- C3 (amended): the PSR cell logic returns "N/A" exactly when either
input cell is the empty string, the 企業価値 regex (first comma-grouped
numeric group followed by `億円`, whitespace permitted between them) or
the 売上 numeric extraction fails, or the extracted sales value is zero;
otherwise it returns `enterpriseValue / (sales × 1/100)` rendered with
exactly two decimal digits. Any match of the claim's whitespace-free
extraction is also a match of the code's; enterprise value "124,976億円"
with sales "4,509,500" yields "2.77". -/
theorem c3_psr :
    (∀ evStr salesStr : String,
      calculatePSR evStr salesStr = "N/A" ↔
        evStr = "" ∨ salesStr = "" ∨ parseEV evStr = none ∨ parseSales salesStr = none ∨
          parseSales salesStr = some (some 0)) ∧
    (∀ cs g, specEVAt cs = some g → matchEVAt cs = some g) ∧
    calculatePSR "124,976億円" "4,509,500" = "2.77" := by
  refine ⟨?_, fun cs g h => specEVAt_sub cs g h, ?_⟩
  · intro evStr salesStr
    unfold calculatePSR
    by_cases he : evStr = ""
    · simp [he]
    by_cases hs : salesStr = ""
    · simp [he, hs]
    rw [if_neg (by simp [he, hs])]
    cases hev : parseEV evStr with
    | none => simp [he, hs, hev]
    | some ev =>
      cases hsal : parseSales salesStr with
      | none => simp [he, hs, hev, hsal]
      | some sales =>
        by_cases h0 : sales = some 0
        · simp [he, hs, hev, hsal, h0]
        · simp only [hev, hsal]
          rw [if_neg h0]
          constructor
          · intro habs
            cases hjd : jsDiv ev sales with
            | none =>
              rw [hjd] at habs
              exact absurd habs (by decide)
            | some q =>
              rw [hjd] at habs
              exact absurd habs (toFixedStr_ne_NA q 2)
          · rintro (h | h | h | h | h)
            · exact absurd h he
            · exact absurd h hs
            · exact Option.noConfusion h
            · exact Option.noConfusion h
            · injection h with h
              exact absurd h h0
  · unfold calculatePSR
    rw [if_neg (by decide)]
    simp only [parseEV_toyota, parseSales_toyota]
    rw [if_neg (by simp)]
    have hdiv : jsDiv (some (124976 : ℚ)) (some (45095 : ℚ)) =
        some ((124976 : ℚ) / 45095) := by
      show (if (45095 : ℚ) = 0 then none else some ((124976 : ℚ) / 45095)) =
        some ((124976 : ℚ) / 45095)
      rw [if_neg (by norm_num)]
    rw [show toFixed2OrNaN (jsDiv (some ((124976 : ℚ))) (some ((45095 : ℚ)))) =
      String.mk (toFixedQ ((124976 : ℚ) / 45095) 2) from by rw [hdiv]; rfl]
    rw [toFixed_toyota]

/-- Witness for C3's extraction-refinement conjunct on `"45億円"`. -/
theorem c3_psr_witness :
    specEVAt "45億円".data = some ['4', '5'] ∧
    matchEVAt "45億円".data = some ['4', '5'] :=
  ⟨by decide, c3_psr.2.1 "45億円".data ['4', '5'] (by decide)⟩

end Compus
